import Mathlib

/-!
Verification of the `name-preprocessing` ETL engine.

This file gives a shallow embedding of the core of the
AtlasOfLivingAustralia/name-preprocessing repository — the record/keys/index
data model (`processing/dataset.py`), the orchestrator scheduling loop
(`processing/orchestrate.py`), the lookup/accept/trail transforms
(`processing/transform.py`), the parent-chain resolution (`afd/parent.py`)
and identifier relabeling (`dwc/transform.py`) — and proves or refutes the
testable properties stated in the repository specification.

Modelling conventions:
* Python values stored in `Record.data` are modelled by `Value`; a composite
  key extraction yields a tuple of scalar field values (`Value.tup`).
* Python dicts are modelled as ordered association lists with
  Python-assignment semantics (`kvset`: replace in place, else append).
* Code that raises is modelled in the `Except String` monad; the message text
  abbreviates the Python exception.
* `uuid.uuid4()` is modelled by an injected stream `fresh : Nat → Value`.
-/

namespace NameProc

/-- A scalar field value: Python `None`, a string, or an integer. -/
inductive Prim where
  | null
  | str (s : String)
  | int (n : Int)
deriving DecidableEq, Repr

/-- A value as seen by `Keys.get`: a scalar, or a tuple of scalars for a
composite key. -/
inductive Value where
  | prim (p : Prim)
  | tup (vs : List Prim)
deriving DecidableEq, Repr

/-- Python `None` (also returned by `dict.get` for a missing field). -/
def Value.null : Value := .prim .null

/-- A string value. -/
def Value.str (s : String) : Value := .prim (.str s)

/-- An integer value. -/
def Value.int (n : Int) : Value := .prim (.int n)

/-- Lookup in an ordered association list (Python `d.get(k)` as an Option). -/
def kvfind? {α : Type} [BEq α] {β : Type} (d : List (α × β)) (k : α) : Option β :=
  (d.find? (fun kv => kv.1 == k)).map (fun kv => kv.2)

/-- Python `k in d` for a dict. -/
def kvhas {α : Type} [BEq α] {β : Type} (d : List (α × β)) (k : α) : Bool :=
  d.any (fun kv => kv.1 == k)

/-- Python dict assignment `d[k] = v`: replaces the value in place if the key
is present (keeping its position), otherwise appends the binding at the end. -/
def kvset {α : Type} [BEq α] {β : Type} (d : List (α × β)) (k : α) (v : β) :
    List (α × β) :=
  if d.any (fun kv => kv.1 == k) then
    d.map (fun kv => if kv.1 == k then (k, v) else kv)
  else d ++ [(k, v)]

/-- Python `d.update(other)`: fold dict assignment over the other dict. -/
def kvupdate {α : Type} [BEq α] {β : Type} (d other : List (α × β)) :
    List (α × β) :=
  other.foldl (fun acc kv => kvset acc kv.1 kv.2) d

/-- `record.data.get(k)`: the stored value, or `None` when the field is
missing (Python conflates a missing key and a stored `None` here). -/
def dget (d : List (String × Value)) (k : String) : Value :=
  (kvfind? d k).getD Value.null

/-- A data record (`dataset.py` lines 30-98): a line number, an ordered
mapping from field name to value, and an optional issues annotation. -/
structure Record where
  line : Nat
  data : List (String × Value)
  issues : Option String
deriving DecidableEq, Repr

/-- `Record.copy` (`dataset.py` 42-50) produces a record sharing no mutable
state with the original; in the pure embedding this is the identity, and
mutation of shared records is modelled explicitly by a record store where it
occurs (`TrailTransform`). -/
def Record.copy (r : Record) : Record := r

/-- `Record.error` (`dataset.py` 65-81): an error-annotated version of a
record; the exception/message arguments are collapsed into one optional
message. -/
def Record.mkError (r : Record) (message : Option String) : Record :=
  let msgs := String.intercalate ", " (([r.issues, message]).filterMap id)
  { line := r.line
    data := kvset (kvset r.data "_line" (Value.int r.line)) "_messages" (Value.str msgs)
    issues := some msgs }

/-- Key description for indexing (`dataset.py` 116-182): an ordered tuple of
field references, modelled by the field names. -/
structure Keys where
  keys : List String
deriving DecidableEq, Repr

/-- `Keys.get` (`dataset.py` 152-164): `None` for an empty key list, the
field value for a singleton key, a tuple of field values for a composite
key.  A composite component that is itself a tuple cannot arise from record
data, so components are scalars. -/
def Keys.get (ks : Keys) (r : Record) : Value :=
  match ks.keys with
  | [] => Value.null
  | [k] => dget r.data k
  | _ => Value.tup (ks.keys.map (fun k =>
      match dget r.data k with
      | .prim p => p
      | .tup _ => .null))

/-- `Keys.set` (`dataset.py` 166-182).  For a composite key the source
compares `len(self.keys) != len(tuple)` — `tuple` being the builtin type, so
Python raises `TypeError` before any assignment happens; the singleton case
assigns the value to the single key field; an empty key list raises
`ValueError`. -/
def Keys.set (ks : Keys) (r : Record) (v : Value) : Except String Record :=
  match ks.keys with
  | [] => .error "ValueError: Empty key set"
  | [k] => .ok { r with data := kvset r.data k v }
  | _ => .error "TypeError: object of type type has no len"

/-- `Keys.make_key_map` (`dataset.py` 137-150): copy the key values of a
record onto the field names of a target `Keys` (all `None` when the record is
`None`).  Source and target key tuples have the same length at every call
site; the zip truncates instead of raising `IndexError` on a shorter
target. -/
def Keys.make_key_map (ks : Keys) (r : Option Record) (target : Keys) :
    List (String × Value) :=
  match r with
  | none => (target.keys.zip ks.keys).map (fun p => (p.1, Value.null))
  | some r => (target.keys.zip ks.keys).map (fun p => (p.1, dget r.data p.2))

/-- `Keys.make_keys` (`dataset.py` 121-135) for a list of field names: each
name is resolved in the schema (a `KeyError` propagates when absent). -/
def make_keys (schema : List String) (keys : List String) :
    Except String Keys :=
  if keys.all (fun k => schema.contains k) then .ok ⟨keys⟩
  else .error "KeyError"

/-- The CPython call protocol for `Keys.make_keys`: its signature is
`(cls, schema, keys)` and it accepts no other keyword, so a call carrying any
further keyword argument raises `TypeError` before the body runs. -/
def make_keys_kwcall (schema : List String) (keys : List String)
    (kwargs : List String) : Except String Keys :=
  match kwargs.find? (fun k => !(k == "schema" || k == "keys")) with
  | some k => .error ("TypeError: make_keys got an unexpected keyword argument " ++ k)
  | none => make_keys schema keys

/-- Index duplicate policy (`dataset.py` 284-287). -/
inductive IndexType where
  | unique
  | first
  | multi
deriving DecidableEq, Repr

/-- An index entry: a single record for UNIQUE/FIRST, a list for MULTI. -/
inductive IndexVal where
  | one (r : Record)
  | many (rs : List Record)
deriving DecidableEq, Repr

/-- A dataset pre-built into a keyed lookup (`dataset.py` 289-328). -/
structure Index where
  keys : Keys
  type : IndexType
  index : List (Value × IndexVal)
deriving DecidableEq, Repr

/-- `Index._add` (`dataset.py` 306-321): a `None` key raises; MULTI collects
records sharing a key into a list in insertion order; otherwise a fresh key
stores the record, a duplicate is dropped under FIRST and raises under
UNIQUE. -/
def Index.addRecord (idx : Index) (r : Record) : Except String Index :=
  let key := idx.keys.get r
  if key == Value.null then .error "No key for record"
  else match idx.type with
  | .multi =>
    if idx.index.any (fun e => e.1 == key) then
      .ok { idx with index := idx.index.map (fun e =>
        if e.1 == key then
          (e.1, match e.2 with
                | .many rs => .many (rs ++ [r])
                | .one r0 => .many [r0, r])
        else e) }
    else .ok { idx with index := idx.index ++ [(key, .many [r])] }
  | _ =>
    if idx.index.any (fun e => e.1 == key) then
      match idx.type with
      | .first => .ok idx
      | _ => .error "Duplicate key"
    else .ok { idx with index := idx.index ++ [(key, .one r)] }

/-- `Index.create` / `__attrs_post_init__` (`dataset.py` 296-304): fold
`_add` over the dataset rows. -/
def Index.create (rows : List Record) (keys : Keys) (type : IndexType) :
    Except String Index :=
  rows.foldlM (fun idx r => idx.addRecord r) ⟨keys, type, []⟩

/-- `Index.findByKey` (`dataset.py` 323-324). -/
def Index.findByKey (idx : Index) (key : Value) : Option IndexVal :=
  kvfind? idx.index key

/-- `Index.find` (`dataset.py` 326-328) specialised to a UNIQUE or FIRST
index, whose entries are always single records: extract a key from the
probing record with the given keys and look it up. -/
def Index.findRecord (idx : Index) (r : Record) (keys : Keys) : Option Record :=
  match idx.findByKey (keys.get r) with
  | some (.one r0) => some r0
  | some (.many _) => none
  | none => none

/-- The accept/reject transform (`transform.py` 1212-1285): keeps the key
data needed by `execute`; ports are omitted. -/
structure AcceptTransform where
  input_keys : Keys
  value_keys : Keys
  exclude : Bool
deriving DecidableEq, Repr

/-- `AcceptTransform.create` (`transform.py` 1222-1243): builds the keys by
calling `Keys.make_keys(schema, keys, case_insensitive=...)` — passing the
`case_insensitive` keyword argument unconditionally, although
`Keys.make_keys` (`dataset.py` 121-135) has no such parameter. -/
def AcceptTransform.create (inputSchema valuesSchema : List String)
    (input_keys value_keys : List String) (case_insensitive exclude : Bool) :
    Except String AcceptTransform := do
  let _ := case_insensitive
  let ik ← make_keys_kwcall inputSchema input_keys ["case_insensitive"]
  let vk ← make_keys_kwcall valuesSchema value_keys ["case_insensitive"]
  .ok { input_keys := ik, value_keys := vk, exclude := exclude }

/-- `AcceptTransform.execute` (`transform.py` 1250-1278) restricted to its
per-row decision: a row is accepted iff the FIRST-index of the values
dataset contains the row's input key, flipped when `exclude` is set. -/
def AcceptTransform.execute (t : AcceptTransform) (rows values : List Record) :
    Except String (List Record × List Record) := do
  let value_index ← Index.create values t.value_keys .first
  let step := fun (st : List Record × List Record) (row : Record) =>
    let found := value_index.findRecord row t.input_keys
    if (!t.exclude && found.isSome) || (t.exclude && found.isNone) then
      (st.1 ++ [row], st.2)
    else (st.1, st.2 ++ [row])
  .ok (rows.foldl step ([], []))

/-- `LookupTransform._remap` (`transform.py` 466-469): with no map, keep the
fields whose value is not `None`; with a map, a dict comprehension over the
mapped, non-`None` fields. -/
def remap (data : List (String × Value)) (m : Option (List (String × String))) :
    List (String × Value) :=
  match m with
  | none => data.filter (fun kv => !(kv.2 == Value.null))
  | some m => data.foldl (fun acc kv =>
      match m.find? (fun e => e.1 == kv.1) with
      | some e => if kv.2 == Value.null then acc else kvset acc e.2 kv.2
      | none => acc) []

/-- `LookupTransform.compose` (`transform.py` 439-464): an unmatched or
unmerged row with no input map is passed through unchanged; otherwise the
remapped input and lookup data are merged into a fresh dict, the side named
by `overwrite` taking precedence. -/
def LookupTransform.compose (input_map lookup_map : Option (List (String × String)))
    (merge overwrite : Bool) (record : Record) (link : Option Record) : Record :=
  if (link.isNone || !merge) && input_map.isNone then record
  else
    let linked_data :=
      match link with
      | none => remap record.data input_map
      | some l =>
        if overwrite then
          kvupdate (kvupdate [] (remap record.data input_map)) (remap l.data lookup_map)
        else
          kvupdate (kvupdate [] (remap l.data lookup_map)) (remap record.data input_map)
    { line := record.line, data := linked_data, issues := record.issues }

/-- A node of the orchestrator graph (`processing/node.py`), abstracted to
what the scheduler observes: port identities, predecessors, the `no_errors`
flag and the datasets the node's execution saves into the context (via the
subcontext created by `Node.run`, whose `commit` merges them upward by
unconditional dict assignment). -/
structure ONode where
  id : String
  inputs : List String
  outputs : List String
  errorPorts : List String
  preds : List String
  no_errors : Bool
  produce : List (String × List Record)
deriving DecidableEq, Repr

/-- The dataset store and completion set of a `ProcessingContext`
(`node.py` 246-389); the parent chain is not modelled (the orchestrator runs
in one context). -/
structure OContext where
  datasets : List (String × List Record)
  completed : List String
deriving DecidableEq, Repr

/-- `ProcessingContext.available` (`node.py` 350-359). -/
def OContext.available (ctx : OContext) (p : String) : Bool :=
  kvhas ctx.datasets p

/-- `ProcessingContext.has_data` (`node.py` 385-389): available and
non-empty. -/
def OContext.has_data (ctx : OContext) (p : String) : Bool :=
  match kvfind? ctx.datasets p with
  | some rows => !rows.isEmpty
  | none => false

/-- `ProcessingContext.has_errors` (`node.py` 369-383): some error port of
the node has a non-empty dataset. -/
def OContext.has_errors (ctx : OContext) (n : ONode) : Bool :=
  n.errorPorts.any (fun p =>
    match kvfind? ctx.datasets p with
    | some rows => !rows.isEmpty
    | none => false)

/-- `Node.is_executable` (`node.py` 240-243): all predecessors completed and
all input ports available. -/
def ONode.is_executable (n : ONode) (ctx : OContext) : Bool :=
  n.preds.all (fun i => ctx.completed.contains i) &&
  n.inputs.all (fun p => ctx.available p)

/-- `Node.run` (`node.py` 175-189): execute in a fresh subcontext and merge
the saved datasets upward on commit (`ProcessingContext.merge`,
unconditional dict assignment). -/
def ONode.run (n : ONode) (ctx : OContext) : OContext :=
  { ctx with datasets := n.produce.foldl (fun acc pd => kvset acc pd.1 pd.2) ctx.datasets }

/-- `Orchestrator.source_node` (`orchestrate.py` 57-71) with an empty
`completed` list: the first node having the port as an output or error. -/
def source_node (nodes : List ONode) (p : String) : Option ONode :=
  nodes.find? (fun n => n.outputs.contains p || n.errorPorts.contains p)

/-- State threaded through `Orchestrator.dangling_nodes`. -/
structure DanglingSt where
  seen : List String
  seenIds : List String
  dangling : List ONode

/-- `Orchestrator.dangling_nodes` (`orchestrate.py` 31-55): input ports that
no node of the graph produces; each examined port is added to `seen`, and a
node is reported at most once. -/
def dangling_nodes (nodes : List ONode) : List ONode :=
  let seen0 := nodes.foldl (fun acc n => acc ++ n.outputs ++ n.errorPorts) []
  let st := nodes.foldl (fun (st : DanglingSt) n =>
    n.inputs.foldl (fun (st : DanglingSt) p =>
      if st.seen.contains p then st
      else if (source_node nodes p).isNone && !st.seenIds.contains n.id then
        { seen := st.seen ++ [p], seenIds := st.seenIds ++ [n.id],
          dangling := st.dangling ++ [n] }
      else { st with seen := st.seen ++ [p] }) st)
    { seen := seen0, seenIds := [], dangling := [] }
  st.dangling

/-- The node produced by the dangling-sink factory
(`create_in_context`, used at `orchestrate.py` 83): a sink consuming the
given port, producing nothing, with `no_errors=False`.  The port id stands
in for the port label in the generated node id. -/
def mkSink (nodeId : String) (p : String) : ONode :=
  { id := nodeId ++ "_" ++ p, inputs := [p], outputs := [], errorPorts := [],
    preds := [], no_errors := false, produce := [] }

/-- `Orchestrator.create_dangling_nodes` (`orchestrate.py` 78-87): a sink for
every given port that is not consumed as an input anywhere and has data in
the context. -/
def create_dangling_nodes (node : ONode) (ports : List String)
    (ctx : OContext) (inputs : List String) : List ONode :=
  ports.foldl (fun acc p =>
    if !inputs.contains p && ctx.has_data p then acc ++ [mkSink node.id p]
    else acc) []

/-- `Orchestrator.execute_dangling_ports` (`orchestrate.py` 89-103): collect
sinks for every node's unconsumed output and error ports, then run them
(the source also appends the sinks to `self.nodes` while iterating it; the
appended sinks have no output or error ports, so visiting them creates
nothing further). -/
def execute_dangling_ports (nodes : List ONode) (ctx : OContext) :
    List ONode × OContext :=
  let inputs := nodes.foldl (fun acc n => acc ++ n.inputs) []
  let sinks := nodes.foldl (fun acc n =>
    acc ++ create_dangling_nodes n n.outputs ctx inputs
        ++ create_dangling_nodes n n.errorPorts ctx inputs) []
  (sinks, sinks.foldl (fun c s => s.run c) ctx)

/-- The inner `for node in ready` loop of `Orchestrator.execute`
(`orchestrate.py` 172-184): run each ready node, mark it completed and done,
and halt as soon as a node with `no_errors` has data on an error port.
Returns the context, the done list, and whether the halt was taken. -/
def runReady (ctx : OContext) (done : List String) (ready : List ONode) :
    OContext × List String × Bool :=
  match ready with
  | [] => (ctx, done, false)
  | n :: rest =>
    let ctx' := { n.run ctx with completed := (n.run ctx).completed ++ [n.id] }
    let done' := done ++ [n.id]
    if n.no_errors && ctx'.has_errors n then (ctx', done', true)
    else runReady ctx' done' rest

/-- The `while not completed` fixpoint loop of `Orchestrator.execute`
(`orchestrate.py` 167-184): each round runs every not-yet-done executable
node; the loop ends when a round has nothing to run, or early when a node
halts on errors.  The recursion is bounded by a fuel of rounds; every round
that recurses has run at least one node not previously done, so a fuel
exceeding the number of nodes suffices (`orchLoop_total` below proves the
`none` case unreachable for the fuel `Orchestrator.execute` supplies). -/
def orchLoop (nodes : List ONode) (fuel : Nat) (ctx : OContext)
    (done : List String) : Option (OContext × List String × Bool) :=
  match fuel with
  | 0 => none
  | fuel + 1 =>
    let ready := nodes.filter (fun n => n.is_executable ctx && !done.contains n.id)
    if ready = [] then some (ctx, done, false)
    else
      let st := runReady ctx done ready
      if st.2.2 = true then some st
      else orchLoop nodes fuel st.1 st.2.1

/-- The result of an orchestrator run: the final context, the final node
list (including the sinks appended by dangling-port recovery) and the
created sinks themselves. -/
structure OrchResult where
  ctx : OContext
  nodes : List ONode
  sinks : List ONode
deriving DecidableEq, Repr

/-- `Orchestrator.execute` (`orchestrate.py` 159-189): run the fixpoint loop;
on an error halt, process dangling ports and return; otherwise process
dangling ports and raise a `ProcessingException` naming the nodes that are
still not executable, when there are any.  At the normal exit the loop flag
`completed` is necessarily true, so the source's `completed and len(invalid)
> 0` test reduces to the invalid list being non-empty. -/
def Orchestrator.execute (nodes : List ONode) (ctx : OContext) :
    Except String OrchResult :=
  match orchLoop nodes (nodes.length + 1) ctx [] with
  | none => .error "RecursionError"
  | some st =>
    let sc := execute_dangling_ports nodes st.1
    if st.2.2 then .ok { ctx := sc.2, nodes := nodes ++ sc.1, sinks := sc.1 }
    else
      let allNodes := nodes ++ sc.1
      let invalid := (allNodes.filter (fun n => !(n.is_executable sc.2))).map (fun n => n.id)
      if invalid = [] then .ok { ctx := sc.2, nodes := allNodes, sinks := sc.1 }
      else .error ("Unable to complete nodes " ++ String.intercalate ", " invalid)

/-- The trail/transitive-closure transform (`transform.py` 1018-1092):
reference key, parent key, optional accepted key and optional retention
predicate. -/
structure TrailTransform where
  reference_keys : Keys
  parent_keys : Keys
  accepted_keys : Option Keys
  predicate : Option (Record → Bool)

/-- `self.predicate is None or self.predicate.test(r)`. -/
def predTest (pred : Option (Record → Bool)) (r : Record) : Bool :=
  match pred with
  | none => true
  | some p => p r

/-- The mutable state shared by all `trace` calls of one execution: the
reference dataset's record objects (addressed by position, because `trace`
mutates them in place), the seen map from reference key to a record object
or Python `None`, and the output dataset as positions into the store. -/
structure TrailState where
  store : List Record
  seen : List (Value × Option Nat)
  result : List Nat
deriving DecidableEq, Repr

/-- Dereference a record position in the store. -/
def getRec (store : List Record) (i : Nat) : Except String Record :=
  match store[i]? with
  | some r => .ok r
  | none => .error "internal: dangling record reference"

/-- The UNIQUE index `Index.create(reference, reference_keys)` built by
`TrailTransform.execute` (`transform.py` 1073), holding store positions so
that lookups see the current version of each mutated record. -/
def trailIndexCreate (store : List Record) (keys : Keys) :
    Except String (List (Value × Nat)) :=
  store.enum.foldlM (fun idx ir => do
    let key := keys.get ir.2
    if key == Value.null then .error "No key for record"
    else if idx.any (fun e => e.1 == key) then .error "Duplicate key"
    else .ok (idx ++ [(key, ir.1)])) []

/-- The in-place pointer rewrite of `trace` (`transform.py` 1047-1051 and
1055-1059): compute the traced target's reference key (`None` for no
target), then mutate the shared record at `ri`, setting its `keysx` fields
to that key. -/
def tracePointerSet (keysx refKeys : Keys) (ri : Nat) (target : Option Nat)
    (st : TrailState) : Except String TrailState := do
  let key ← match target with
    | some pj => do
      let p ← getRec st.store pj
      pure (refKeys.get p)
    | none => pure Value.null
  let record ← getRec st.store ri
  let record ← keysx.set record key
  pure { st with store := st.store.set ri record }

/-- `TrailTransform.trace` (`transform.py` 1040-1068): memoize the record
under its reference key, recursively trace the parent and accepted links,
rewrite (in place, via `tracePointerSet`) the record's parent/accepted key
fields to the reference key of the traced targets, and emit the record when
it is required or passes the predicate; otherwise answer (and memoize) the
traced parent when that passes the predicate, else `None`.  The recursion is
fuel-bounded; each nested call is on a record whose reference key is not yet
seen, so the fuel `execute` supplies never runs out. -/
def TrailTransform.trace (t : TrailTransform) (index : List (Value × Nat))
    (fuel : Nat) (ri : Nat) (required : Bool) (st : TrailState) :
    Except String (Option Nat × TrailState) :=
  match fuel with
  | 0 => .error "RecursionError"
  | fuel + 1 => do
    let record ← getRec st.store ri
    let reference_key := t.reference_keys.get record
    match kvfind? st.seen reference_key with
    | some cached => .ok (cached, st)
    | none => do
      let st := { st with seen := kvset st.seen reference_key (some ri) }
      let pr ← match kvfind? index (t.parent_keys.get record) with
        | some pi => do
          let pres ← t.trace index fuel pi false st
          let st ← tracePointerSet t.parent_keys t.reference_keys ri pres.1 pres.2
          pure (pres.1, st)
        | none => do
          let st ← tracePointerSet t.parent_keys t.reference_keys ri none st
          pure ((none : Option Nat), st)
      let parent := pr.1
      let st := pr.2
      let st ← match t.accepted_keys with
        | some accepted_keys => do
          let record ← getRec st.store ri
          match kvfind? index (accepted_keys.get record) with
          | some ai => do
            let ares ← t.trace index fuel ai false st
            tracePointerSet accepted_keys t.reference_keys ri ares.1 ares.2
          | none => tracePointerSet accepted_keys t.reference_keys ri none st
        | none => pure st
      let record ← getRec st.store ri
      if required || predTest t.predicate record then
        .ok (some ri, { st with result := st.result ++ [ri] })
      else
        match parent with
        | some pj => do
          let p ← getRec st.store pj
          if predTest t.predicate p then
            .ok (some pj, { st with seen := kvset st.seen reference_key (some pj) })
          else
            .ok ((none : Option Nat), { st with seen := kvset st.seen reference_key none })
        | none =>
          .ok ((none : Option Nat), { st with seen := kvset st.seen reference_key none })

/-- `TrailTransform.execute` (`transform.py` 1070-1092): index the reference
table, trace every input row found in it (required), collect an error record
for a missing reference entry, and return the output rows, the error rows
and the reference store after execution (the store is returned because
`trace` mutates the reference records in place).  A per-row exception is
converted to an error record; in that branch the partial state mutation of
the failing row is not modelled.  `trailExecuteStep` is the loop body for
one input row. -/
def trailExecuteStep (t : TrailTransform) (index : List (Value × Nat))
    (fuel : Nat) (acc : TrailState × List Record) (record : Record) :
    TrailState × List Record :=
  match kvfind? index (t.reference_keys.get record) with
  | none => (acc.1, acc.2 ++ [record.mkError (some "Missing reference entry")])
  | some ri =>
    match t.trace index fuel ri true acc.1 with
    | .ok res => (res.2, acc.2)
    | .error e => (acc.1, acc.2 ++ [record.mkError (some e)])

def TrailTransform.execute (t : TrailTransform) (input reference : List Record) :
    Except String (List Record × List Record × List Record) := do
  let index ← trailIndexCreate reference t.reference_keys
  let fuel := reference.length + 1
  let fin := input.foldl (trailExecuteStep t index fuel)
    ({ store := reference, seen := [], result := [] }, [])
  .ok (fin.1.result.filterMap (fun i => fin.1.store[i]?), fin.2, fin.1.store)

/-- The parent-chain resolution transform (`afd/parent.py` 10-36). -/
structure ParentTransform where
  input_keys : Keys
  link_keys : Keys
  kingdom_rank : Value
  rank_keys : Keys
  default_kingdom_name : Value
  name_keys : Keys
deriving DecidableEq, Repr

/-- The outcome of one `while True` parent walk (`afd/parent.py` 66-84). -/
inductive WalkOutcome where
  | cycle
  | chainEnd
  | found (r : Record)
deriving DecidableEq, Repr

/-- The `while True` walk of `ParentTransform.execute` (`afd/parent.py`
66-84): follow the link key through the full table, breaking on a link-key
value already in the per-walk trail (cycle), a missing parent (chain end) or
a parent present in the valid data index.  Fuel-bounded: every iteration
that continues adds a fresh link-key value to the trail, and each such value
must find a record of the full table, so the fuel `execute` supplies never
runs out. -/
def ParentTransform.walk (pt : ParentTransform) (index data_index : Index)
    (fuel : Nat) (parent : Record) (trail : List Value) :
    Except String WalkOutcome :=
  match fuel with
  | 0 => .error "RecursionError"
  | fuel + 1 =>
    let kv := pt.link_keys.get parent
    if trail.contains kv then .ok .cycle
    else
      match index.findRecord parent pt.link_keys with
      | none => .ok .chainEnd
      | some p =>
        if (data_index.findRecord p pt.input_keys).isSome then .ok (.found p)
        else pt.walk index data_index fuel p (trail ++ [kv])

/-- `ParentTransform.compose` (`afd/parent.py` 98-111): copy the record's
data and update it with the key map carrying the parent's input key onto the
link key fields (`None` for a missing parent). -/
def ParentTransform.compose (pt : ParentTransform) (record : Record)
    (parent : Option Record) : Record :=
  { line := record.line
    data := kvupdate record.data (pt.input_keys.make_key_map parent pt.link_keys)
    issues := record.issues }

/-- `ParentTransform.execute` (`afd/parent.py` 49-96): index the valid data
and the full table, determine the kingdom rows and the default kingdom, and
walk each data row: a cycle emits one error record, counts an error and
substitutes the default kingdom; a chain end on a non-kingdom row counts an
error (without an error record) and substitutes the default kingdom; a
kingdom row composes with no parent.  Returns the output rows, error rows
and the error counter. -/
def ParentTransform.execute (pt : ParentTransform) (data full : List Record) :
    Except String (List Record × List Record × Nat) := do
  let data_index ← Index.create data pt.input_keys .unique
  let kingdomIdxs := (List.range data.length).filter (fun i =>
    match data[i]? with
    | some r => pt.rank_keys.get r == pt.kingdom_rank
    | none => false)
  let default_kingdom := (kingdomIdxs.filter (fun i =>
    match data[i]? with
    | some r => pt.name_keys.get r == pt.default_kingdom_name
    | none => false)).head?.bind (fun i => data[i]?)
  let index ← Index.create full pt.input_keys .unique
  .ok (data.enum.foldl (fun (acc : List Record × List Record × Nat) ir =>
    match pt.walk index data_index (full.length + 2) ir.2 [] with
    | .ok .cycle =>
      (acc.1 ++ [pt.compose ir.2 default_kingdom],
       acc.2.1 ++ [ir.2.mkError (some "Circular history reference")],
       acc.2.2 + 1)
    | .ok .chainEnd =>
      if kingdomIdxs.contains ir.1 then
        (acc.1 ++ [pt.compose ir.2 none], acc.2.1, acc.2.2)
      else
        (acc.1 ++ [pt.compose ir.2 default_kingdom], acc.2.1, acc.2.2 + 1)
    | .ok (.found p) =>
      (acc.1 ++ [pt.compose ir.2 (some p)], acc.2.1, acc.2.2)
    | .error e =>
      (acc.1, acc.2.1 ++ [ir.2.mkError (some e)], acc.2.2 + 1)) ([], [], 0))

/-- The identifier-relabeling transform (`dwc/transform.py` 189-210): the
identifier/parent/accepted key fields and the pluggable identifier
function. -/
structure DwcTaxonReidentify where
  identifier_keys : Keys
  parent_keys : Keys
  accepted_keys : Keys
  identifier : Record → Value

/-- The state built by pass 1 of `DwcTaxonReidentify.execute`
(`dwc/transform.py` 223-240): the old-to-new map keyed by original
identifier, the per-line replacement map, the mapping output rows, the line
counter and the count of generated fresh identifiers. -/
structure ReidentSt where
  map_lookup : List (Value × Value)
  map_replace : List (Nat × Value)
  mapping : List Record
  line : Nat
  fcount : Nat

/-- Pass 1 of `DwcTaxonReidentify.execute` (`dwc/transform.py` 226-240):
compute each record's new identifier; when it is already a key of
`map_lookup` (i.e. equals the original identifier of an earlier record),
substitute a fresh identifier without recording any mapping; otherwise
record old-to-new in `map_lookup` and emit a mapping row.  Either way the
identifier used is recorded per line in `map_replace`.  `reidentStep` is the
loop body for one record. -/
def reidentStep (t : DwcTaxonReidentify) (fresh : Nat → Value)
    (st : ReidentSt) (record : Record) : ReidentSt :=
  let original := t.identifier_keys.get record
  let idv := t.identifier record
  if kvhas st.map_lookup idv then
    { st with
      map_replace := st.map_replace ++ [(st.line, fresh st.fcount)]
      line := st.line + 1
      fcount := st.fcount + 1 }
  else
    { st with
      map_lookup := kvset st.map_lookup original idv
      mapping := st.mapping ++ [⟨record.line, [("term", original), ("mapping", idv)], none⟩]
      map_replace := st.map_replace ++ [(st.line, idv)]
      line := st.line + 1 }

def reidentPass1 (t : DwcTaxonReidentify) (fresh : Nat → Value)
    (rows : List Record) : ReidentSt :=
  rows.foldl (reidentStep t fresh)
    { map_lookup := [], map_replace := [], mapping := [], line := 0, fcount := 0 }

/-- One pass-2 composition of `DwcTaxonReidentify.execute`
(`dwc/transform.py` 244-259): copy the record, replace its identifier by the
pass-1 replacement for its line, and rewrite the parent and accepted
pointers through `map_lookup` keyed by the referenced record's original
identifier (left unchanged when absent from the map). -/
def reidentCompose (t : DwcTaxonReidentify) (index : Index)
    (map_lookup : List (Value × Value)) (map_replace : List (Nat × Value))
    (line : Nat) (record : Record) : Except String Record := do
  let composed := Record.copy record
  let original := t.identifier_keys.get record
  let idv := (kvfind? map_replace line).getD original
  let composed ← t.identifier_keys.set composed idv
  let composed ← match index.findRecord record t.parent_keys with
    | some parent =>
      let po := t.identifier_keys.get parent
      t.parent_keys.set composed ((kvfind? map_lookup po).getD po)
    | none => pure composed
  let composed ← match index.findRecord record t.accepted_keys with
    | some accepted =>
      let ao := t.identifier_keys.get accepted
      t.accepted_keys.set composed ((kvfind? map_lookup ao).getD ao)
    | none => pure composed
  .ok composed

/-- Pass 2 of `DwcTaxonReidentify.execute` (`dwc/transform.py` 243-265):
compose every row; a per-row exception becomes an error record and the line
counter advances regardless.  `reidentPass2Step` is the loop body for one
record. -/
def reidentPass2Step (t : DwcTaxonReidentify) (index : Index)
    (map_lookup : List (Value × Value)) (map_replace : List (Nat × Value))
    (acc : List Record × List Record × Nat) (record : Record) :
    List Record × List Record × Nat :=
  match reidentCompose t index map_lookup map_replace acc.2.2 record with
  | .ok composed => (acc.1 ++ [composed], acc.2.1, acc.2.2 + 1)
  | .error e => (acc.1, acc.2.1 ++ [record.mkError (some e)], acc.2.2 + 1)

def reidentPass2 (t : DwcTaxonReidentify) (index : Index)
    (map_lookup : List (Value × Value)) (map_replace : List (Nat × Value))
    (rows : List Record) : List Record × List Record :=
  let fin := rows.foldl (reidentPass2Step t index map_lookup map_replace) ([], [], 0)
  (fin.1, fin.2.1)

/-- `DwcTaxonReidentify.execute` (`dwc/transform.py` 217-268): build the
FIRST index of the input by identifier, run pass 1 and pass 2, and return
the relabelled rows, the mapping rows and the error rows. -/
def DwcTaxonReidentify.execute (t : DwcTaxonReidentify) (fresh : Nat → Value)
    (rows : List Record) :
    Except String (List Record × List Record × List Record) := do
  let index ← Index.create rows t.identifier_keys .first
  let st := reidentPass1 t fresh rows
  let rr := reidentPass2 t index st.map_lookup st.map_replace rows
  .ok (rr.1, st.mapping, rr.2)

/-! ## Specification-side definitions -/

/-- `new` agrees with `old` on the line number, the issues and every field
outside `fields` (used to state that `TrailTransform.trace` rewrites only
the parent/accepted key fields of the reference records). -/
def agreesExcept (fields : List String) (old new : Record) : Prop :=
  new.line = old.line ∧ new.issues = old.issues ∧
  ∀ k, k ∉ fields → kvfind? new.data k = kvfind? old.data k

/-- The fields a `TrailTransform` rewrites in place: its parent key fields
and, when present, its accepted key fields. -/
def pointerFields (t : TrailTransform) : List String :=
  t.parent_keys.keys ++ (match t.accepted_keys with
    | some a => a.keys
    | none => [])

/-! ## Concrete instances used by the claims -/

/-- Composite key over fields `a`, `b`. -/
def keysAB : Keys := ⟨["a", "b"]⟩

/-- A record with both composite key fields present. -/
def recAB : Record := ⟨0, [("a", Value.int 1), ("b", Value.int 2)], none⟩

/-- A fresh record of the same shape as `recAB`. -/
def recFresh : Record := ⟨0, [("a", Value.null), ("b", Value.null)], none⟩

/-- Reference row `{id:1, parent:null}`. -/
def trailRec1 : Record := ⟨1, [("id", Value.str "1"), ("parent", Value.null)], none⟩

/-- Reference row `{id:2, parent:1}`. -/
def trailRec2 : Record := ⟨2, [("id", Value.str "2"), ("parent", Value.str "1")], none⟩

/-- Reference row `{id:3, parent:2}`. -/
def trailRec3 : Record := ⟨3, [("id", Value.str "3"), ("parent", Value.str "2")], none⟩

/-- A trail transform over `id`/`parent`, no accepted keys, no predicate. -/
def tTrail : TrailTransform := ⟨⟨["id"]⟩, ⟨["parent"]⟩, none, none⟩

/-- A reference row whose parent pointer resolves to no reference entry. -/
def trailRefMut : Record := ⟨1, [("id", Value.str "1"), ("parent", Value.str "99")], none⟩

/-- `trailRefMut` after `trace` rewrote its parent field to `None` in
place. -/
def trailRefMut' : Record := ⟨1, [("id", Value.str "1"), ("parent", Value.null)], none⟩

/-- The default kingdom record. -/
def pK : Record :=
  ⟨1, [("id", Value.str "K"), ("parent", Value.null), ("rank", Value.str "kingdom"),
       ("name", Value.str "Animalia")], none⟩

/-- Cycle member `X` with parent `Y`. -/
def pX : Record :=
  ⟨2, [("id", Value.str "X"), ("parent", Value.str "Y"), ("rank", Value.str "genus"),
       ("name", Value.str "X")], none⟩

/-- Cycle member `Y` with parent `Z`. -/
def pY : Record :=
  ⟨3, [("id", Value.str "Y"), ("parent", Value.str "Z"), ("rank", Value.str "genus"),
       ("name", Value.str "Y")], none⟩

/-- Cycle member `Z` with parent `X`, closing the cycle `X→Y→Z→X`. -/
def pZ : Record :=
  ⟨4, [("id", Value.str "Z"), ("parent", Value.str "X"), ("rank", Value.str "genus"),
       ("name", Value.str "Z")], none⟩

/-- A valid record whose parent chain enters the cycle at `X`. -/
def pW : Record :=
  ⟨5, [("id", Value.str "W"), ("parent", Value.str "X"), ("rank", Value.str "genus"),
       ("name", Value.str "W")], none⟩

/-- The parent-chain transform keyed on `id`/`parent`, with kingdom rank
`kingdom` and default kingdom name `Animalia`. -/
def pTr : ParentTransform :=
  ⟨⟨["id"]⟩, ⟨["parent"]⟩, Value.str "kingdom", ⟨["rank"]⟩,
   Value.str "Animalia", ⟨["name"]⟩⟩

/-- `pW` composed with the default kingdom substituted as its parent. -/
def pWout : Record :=
  ⟨5, [("id", Value.str "W"), ("parent", Value.str "K"), ("rank", Value.str "genus"),
       ("name", Value.str "W")], none⟩

/-- The error record emitted for `pW`'s cyclic walk. -/
def pWerr : Record := pW.mkError (some "Circular history reference")

/-- A one-row dataset. -/
def recD : Record := ⟨1, [("x", Value.str "d")], none⟩

/-- A one-row error dataset. -/
def recE : Record := ⟨1, [("x", Value.str "err")], none⟩

/-- Node `A`: no inputs, saves a data row on `A.out` and an error row on
`A.err`, with `no_errors` set. -/
def nA : ONode :=
  ⟨"A", [], ["A.out"], ["A.err"], [], true, [("A.out", [recD]), ("A.err", [recE])]⟩

/-- Node `B`: consumes `A.out`. -/
def nB : ONode :=
  ⟨"B", ["A.out"], ["B.out"], ["B.err"], [], true, [("B.out", [recD]), ("B.err", [])]⟩

/-- Node `C`: consumes `B.out`. -/
def nC : ONode :=
  ⟨"C", ["B.out"], ["C.out"], ["C.err"], [], true, [("C.out", [recD]), ("C.err", [])]⟩

/-- Input row `A` for relabeling, carrying its intended new identifier in
field `newid`. -/
def rdA : Record :=
  ⟨1, [("taxonID", Value.str "A"), ("parentNameUsageID", Value.null),
       ("acceptedNameUsageID", Value.null), ("newid", Value.str "N1")], none⟩

/-- Input row `B`, whose intended new identifier `A` collides with the
original identifier of row `A`. -/
def rdB : Record :=
  ⟨2, [("taxonID", Value.str "B"), ("parentNameUsageID", Value.null),
       ("acceptedNameUsageID", Value.null), ("newid", Value.str "A")], none⟩

/-- Input row `C`, whose parent pointer references row `B`. -/
def rdC : Record :=
  ⟨3, [("taxonID", Value.str "C"), ("parentNameUsageID", Value.str "B"),
       ("acceptedNameUsageID", Value.null), ("newid", Value.str "N3")], none⟩

/-- The relabeling transform of the Darwin Core pipeline: identifier field
`taxonID`, pointers `parentNameUsageID`/`acceptedNameUsageID`, and an
identifier function reading the intended new identifier from `newid`. -/
def tReident : DwcTaxonReidentify :=
  ⟨⟨["taxonID"]⟩, ⟨["parentNameUsageID"]⟩, ⟨["acceptedNameUsageID"]⟩,
   fun r => dget r.data "newid"⟩

/-- A deterministic stand-in for the `uuid.uuid4()` stream. -/
def freshR : Nat → Value := fun n => Value.str ("uuid-" ++ toString n)

/-- Relabeling input row with no pointers. -/
def rwA : Record :=
  ⟨1, [("taxonID", Value.str "A"), ("parentNameUsageID", Value.null),
       ("acceptedNameUsageID", Value.null), ("newid", Value.str "NA")], none⟩

/-- Relabeling input row whose parent pointer references `rwA`. -/
def rwB : Record :=
  ⟨2, [("taxonID", Value.str "B"), ("parentNameUsageID", Value.str "A"),
       ("acceptedNameUsageID", Value.null), ("newid", Value.str "NB")], none⟩

/-- A record with a `None`-valued field and a string field. -/
def c10rec : Record := ⟨1, [("a", Value.null), ("k", Value.str "b")], none⟩

/-- A lookup-side record with a `None`-valued field. -/
def c10link : Record := ⟨2, [("m", Value.null)], none⟩

/-! ## Theorems -/

/-- C6: the key round-trip is broken for composite keys — `Keys.set` on a
two-field key raises `TypeError` (the source computes `len(tuple)` of the
builtin type instead of the value's length), although the very same
`Keys.get` extracts the composite key fine and the single-key round-trip
works; the code contradicts its own docstring, which says a composite set
takes a tuple value. -/
theorem keys_set_composite_raises :
    keysAB.set recFresh (keysAB.get recAB) =
      .error "TypeError: object of type type has no len" ∧
    keysAB.get recAB = Value.tup [.int 1, .int 2] ∧
    ((⟨["a"]⟩ : Keys).set recFresh (Value.int 7)).map (fun r => (⟨["a"]⟩ : Keys).get r) =
      .ok (Value.int 7) :=
  ⟨rfl, rfl, rfl⟩

/-- C9: `AcceptTransform.create` raises `TypeError` for every argument
combination — it always forwards the `case_insensitive` keyword to
`Keys.make_keys`, which has no such parameter — contradicting its own
docstring (and its callers in `location.py`), so no accept transform can be
constructed through `create` at all, case-insensitive or not. -/
theorem accept_create_raises (s1 s2 k1 k2 : List String) (ci ex : Bool) :
    AcceptTransform.create s1 s2 k1 k2 ci ex =
      .error "TypeError: make_keys got an unexpected keyword argument case_insensitive" :=
  rfl

/-- C4: trail closure over the reference table `{id:1,parent:null}`,
`{id:2,parent:1}`, `{id:3,parent:2}` with no predicate: starting from `{3}`
the output is exactly records 1, 2, 3 in parent-before-child order with no
duplicates, and starting from `{2,3}` the output is still exactly records
1, 2, 3 emitted once each. -/
theorem trail_closure_example :
    tTrail.execute [trailRec3] [trailRec1, trailRec2, trailRec3] =
      .ok ([trailRec1, trailRec2, trailRec3], [], [trailRec1, trailRec2, trailRec3]) ∧
    tTrail.execute [trailRec2, trailRec3] [trailRec1, trailRec2, trailRec3] =
      .ok ([trailRec1, trailRec2, trailRec3], [], [trailRec1, trailRec2, trailRec3]) :=
  ⟨rfl, rfl⟩

/-- C7 counterexample: `TrailTransform.execute` mutates a record of the
reference dataset it reads — tracing a reference row whose parent pointer
resolves nowhere rewrites that row's parent field to `None` in place, so the
reference dataset's record differs after execution. -/
theorem trail_mutation_cex :
    tTrail.execute [trailRefMut] [trailRefMut] =
      .ok ([trailRefMut'], [], [trailRefMut']) ∧
    trailRefMut' ≠ trailRefMut :=
  ⟨rfl, by decide⟩

/-- C5 counterexample: running `ParentTransform.execute` over data that
itself contains the 3-record parent cycle `X→Y→Z→X` (plus the default
kingdom) terminates with NO error record, a zero error counter, and each
cyclic record composed with its immediate valid parent — not with the
default root — because every walk breaks as soon as it finds a parent
present in the valid data index. -/
theorem parent_cycle_cex :
    pTr.execute [pK, pX, pY, pZ] [pK, pX, pY, pZ] = .ok ([pK, pX, pY, pZ], [], 0) :=
  rfl

/-- C5 amended: a walk whose parent chain enters a cycle of records absent
from the valid data terminates, adds exactly one error record, increments
the error counter once, and composes the affected record with the default
kingdom substituted as its parent. -/
theorem parent_cycle_amended :
    pTr.execute [pK, pW] [pK, pW, pX, pY, pZ] = .ok ([pK, pWout], [pWerr], 1) :=
  rfl

/-- C3 counterexample: in the halt-then-recover run `A→B` (A produces a data
row on `A.out` and an error row on `A.err`, `no_errors=true`), B never runs,
`A.out` holds data in the context, and yet NO dangling sink drains `A.out` —
it is excluded from recovery because it is B's declared input. -/
theorem halt_recover_cex :
    (Orchestrator.execute [nA, nB] ⟨[], []⟩).toOption.map (fun res =>
      (res.ctx.completed, res.ctx.has_data "A.out",
       res.sinks.filter (fun s => s.inputs.contains "A.out"))) =
      some (["A"], true, []) :=
  rfl

/-- C3 amended: in the halt-then-recover run `A→B`, scheduling halts after A
(B never runs), and dangling-port recovery creates sinks exactly for the
produced ports holding data that no node of the graph consumes as an input —
here A's error port only, A's output port being B's input. -/
theorem halt_recover_amended :
    (Orchestrator.execute [nA, nB] ⟨[], []⟩).toOption.map (fun res =>
      (res.ctx.completed, res.sinks.map (fun s => s.inputs))) =
      some (["A"], [["A.err"]]) :=
  rfl

/-- C2 counterexample: the chain `A→B→C` has no dangling input, A halts the
scheduler by producing an error row under `no_errors`, and
`Orchestrator.execute` returns normally (no exception) while node C is still
not executable — refuting the claim that on termination every node is
executable or a `ProcessingException` is raised. -/
theorem scheduler_fixpoint_cex :
    dangling_nodes [nA, nB, nC] = [] ∧
    (Orchestrator.execute [nA, nB, nC] ⟨[], []⟩).toOption.map (fun res =>
      nC.is_executable res.ctx) = some false :=
  ⟨rfl, rfl⟩

/-- C8: given a two-record dataset sharing a non-null key, UNIQUE index
construction raises `Duplicate key`; the FIRST index keeps the earlier
record (its single entry maps the key to record 1, which `findByKey`
returns); the MULTI index collects both records in insertion order and
`findByKey` returns them both. -/
theorem index_policy (r1 r2 : Record) (k : Keys)
    (hkey : k.get r2 = k.get r1) (hnn : k.get r1 ≠ Value.null) :
    Index.create [r1, r2] k .unique = .error "Duplicate key" ∧
    Index.create [r1, r2] k .first = .ok ⟨k, .first, [(k.get r1, .one r1)]⟩ ∧
    (⟨k, .first, [(k.get r1, .one r1)]⟩ : Index).findByKey (k.get r2) = some (.one r1) ∧
    Index.create [r1, r2] k .multi = .ok ⟨k, .multi, [(k.get r1, .many [r1, r2])]⟩ ∧
    (⟨k, .multi, [(k.get r1, .many [r1, r2])]⟩ : Index).findByKey (k.get r2) = some (.many [r1, r2]) := by
  have hb1 : (k.get r1 == Value.null) = false := beq_eq_false_iff_ne.mpr hnn
  refine ⟨?_, ?_, ?_, ?_, ?_⟩ <;>
    simp [Index.create, Index.addRecord, Index.findByKey, kvfind?, hkey, hb1, hnn, bind, Except.bind, pure, Except.pure]


def w8r1 : Record := ⟨1, [("k", Value.str "x")], none⟩
def w8r2 : Record := ⟨2, [("k", Value.str "x"), ("y", Value.int 1)], none⟩

/-- Witness for `index_policy` at a concrete two-record dataset sharing key
`x`. -/
theorem index_policy_witness :
    Index.create [w8r1, w8r2] ⟨["k"]⟩ .unique = .error "Duplicate key" ∧
    Index.create [w8r1, w8r2] ⟨["k"]⟩ .first =
      .ok ⟨⟨["k"]⟩, .first, [(Keys.get ⟨["k"]⟩ w8r1, .one w8r1)]⟩ ∧
    (⟨⟨["k"]⟩, .first, [(Keys.get ⟨["k"]⟩ w8r1, .one w8r1)]⟩ : Index).findByKey
      (Keys.get ⟨["k"]⟩ w8r2) = some (.one w8r1) ∧
    Index.create [w8r1, w8r2] ⟨["k"]⟩ .multi =
      .ok ⟨⟨["k"]⟩, .multi, [(Keys.get ⟨["k"]⟩ w8r1, .many [w8r1, w8r2])]⟩ ∧
    (⟨⟨["k"]⟩, .multi, [(Keys.get ⟨["k"]⟩ w8r1, .many [w8r1, w8r2])]⟩ : Index).findByKey
      (Keys.get ⟨["k"]⟩ w8r2) = some (.many [w8r1, w8r2]) :=
  index_policy w8r1 w8r2 ⟨["k"]⟩ (by decide) (by decide)


/-- Dict assignment preserves a predicate on the stored values. -/
theorem kvset_values {α β : Type} [BEq α] {P : β → Prop} {d : List (α × β)}
    {k : α} {v : β} (hd : ∀ kv ∈ d, P kv.2) (hv : P v) :
    ∀ kv ∈ kvset d k v, P kv.2 := by
  intro kv hkv
  unfold kvset at hkv
  split at hkv
  · obtain ⟨kv0, hkv0, heq⟩ := List.mem_map.mp hkv
    split at heq
    · rw [← heq]; exact hv
    · rw [← heq]; exact hd kv0 hkv0
  · rcases List.mem_append.mp hkv with h | h
    · exact hd kv h
    · simp at h; subst h; exact hv

/-- Dict update preserves a predicate on the stored values. -/
theorem kvupdate_values {α β : Type} [BEq α] {P : β → Prop} :
    ∀ (other d : List (α × β)), (∀ kv ∈ d, P kv.2) → (∀ kv ∈ other, P kv.2) →
    ∀ kv ∈ kvupdate d other, P kv.2 := by
  intro other
  induction other with
  | nil => intro d hd _ kv h; exact hd kv h
  | cons x xs ih =>
    intro d hd hother kv h
    have hstep : ∀ kv ∈ kvset d x.1 x.2, P kv.2 :=
      kvset_values hd (hother x (by simp))
    have h' : kv ∈ kvupdate (kvset d x.1 x.2) xs := h
    exact ih (kvset d x.1 x.2) hstep (fun kv hk => hother kv (by simp [hk])) kv h'

/-- Every value produced by `LookupTransform._remap` is non-`None`, with or
without a column map. -/
theorem remap_values (data : List (String × Value)) (m : Option (List (String × String))) :
    ∀ kv ∈ remap data m, kv.2 ≠ Value.null := by
  cases m with
  | none =>
    intro kv h
    have := List.mem_filter.mp h
    simpa using this.2
  | some m =>
    suffices hgen : ∀ (l : List (String × Value)) (acc : List (String × Value)),
        (∀ kv ∈ acc, kv.2 ≠ Value.null) →
        ∀ kv ∈ l.foldl (fun acc kv =>
          match m.find? (fun e => e.1 == kv.1) with
          | some e => if kv.2 == Value.null then acc else kvset acc e.2 kv.2
          | none => acc) acc, kv.2 ≠ Value.null by
      intro kv h
      exact hgen data [] (by simp) kv h
    intro l
    induction l with
    | nil => intro acc hacc kv h; exact hacc kv h
    | cons x xs ih =>
      intro acc hacc kv h
      simp only [List.foldl_cons] at h
      refine ih _ ?_ kv h
      cases hfind : m.find? (fun e => e.1 == x.1) with
      | none => simpa [hfind] using hacc
      | some e =>
        cases hnull : (x.2 == Value.null) with
        | true => simpa [hfind, hnull] using hacc
        | false =>
          have hx : x.2 ≠ Value.null := by simpa using hnull
          simp only [hfind, hnull, Bool.false_eq_true, if_false]
          show ∀ kv ∈ kvset acc e.2 x.2, kv.2 ≠ Value.null
          exact kvset_values (P := fun v => v ≠ Value.null) hacc hx

/-- C10: when `LookupTransform.compose` joins a matched input row with a
lookup row (merge mode, any column maps, either precedence), every field of
the composed record is non-`None` — `None`-valued fields of both sides are
omitted; an unmatched row with no input mapping is passed through as the
same record, `None` fields retained. -/
theorem lookup_compose_null_fields :
    (∀ (im lm : Option (List (String × String))) (ow : Bool) (record l : Record)
       (k : String) (v : Value),
       (k, v) ∈ (LookupTransform.compose im lm true ow record (some l)).data →
       v ≠ Value.null) ∧
    (∀ (lm : Option (List (String × String))) (mg ow : Bool) (record : Record),
       LookupTransform.compose none lm mg ow record none = record) := by
  constructor
  · intro im lm ow record l k v hmem
    unfold LookupTransform.compose at hmem
    simp only [Option.isNone_some, Bool.not_true, Bool.or_false, Bool.false_and,
      Bool.false_eq_true, if_false] at hmem
    cases ow with
    | true =>
      simp only [if_true] at hmem
      exact kvupdate_values (P := fun v => v ≠ Value.null)
        (remap l.data lm) (kvupdate [] (remap record.data im))
        (kvupdate_values (P := fun v => v ≠ Value.null)
          (remap record.data im) [] (by simp) (remap_values record.data im))
        (remap_values l.data lm) (k, v) hmem
    | false =>
      simp only [Bool.false_eq_true, if_false] at hmem
      exact kvupdate_values (P := fun v => v ≠ Value.null)
        (remap record.data im) (kvupdate [] (remap l.data lm))
        (kvupdate_values (P := fun v => v ≠ Value.null)
          (remap l.data lm) [] (by simp) (remap_values l.data lm))
        (remap_values record.data im) (k, v) hmem
  · intro lm mg ow record
    unfold LookupTransform.compose
    simp

/-- Witness for `lookup_compose_null_fields`: a concrete join whose output
retains the non-null field, and a concrete unmatched pass-through. -/
theorem lookup_compose_null_fields_witness :
    Value.str "b" ≠ Value.null ∧
    LookupTransform.compose none none false false c10rec none = c10rec :=
  ⟨lookup_compose_null_fields.1 none none false c10rec c10link "k" (Value.str "b")
    (by decide),
   lookup_compose_null_fields.2 none false false c10rec⟩



/-- A filter with a pointwise-smaller predicate keeps at most as many
elements. -/
theorem length_filter_mono {α : Type} (l : List α) (p q : α → Bool)
    (himp : ∀ a, q a = true → p a = true) :
    (l.filter q).length ≤ (l.filter p).length := by
  induction l with
  | nil => simp
  | cons x xs ih =>
    rcases hq : q x with _ | _
    · rcases hp : p x with _ | _ <;> simp [List.filter_cons, hq, hp] <;> omega
    · have hp := himp x hq
      simp [List.filter_cons, hq, hp]
      omega

/-- A filter loses at least one element when some kept element is dropped by
the smaller predicate. -/
theorem length_filter_lt {α : Type} (l : List α) (p q : α → Bool)
    (himp : ∀ a, q a = true → p a = true)
    (a : α) (ha : a ∈ l) (hpa : p a = true) (hqa : q a = false) :
    (l.filter q).length < (l.filter p).length := by
  induction l with
  | nil => cases ha
  | cons x xs ih =>
    rcases List.mem_cons.mp ha with rfl | hmem
    · have hle := length_filter_mono xs p q himp
      simp [List.filter_cons, hqa, hpa]
      omega
    · rcases hq : q x with _ | _
      · rcases hp : p x with _ | _
        · have := ih hmem
          simp [List.filter_cons, hq, hp]
          omega
        · have := ih hmem
          simp [List.filter_cons, hq, hp]
          omega
      · have hp := himp x hq
        have := ih hmem
        simp [List.filter_cons, hq, hp]
        omega

/-- A full (unhalted) `runReady` round marks exactly the ready nodes done,
in order. -/
theorem runReady_done (ready : List ONode) :
    ∀ ctx done, (runReady ctx done ready).2.2 = false →
      (runReady ctx done ready).2.1 = done ++ ready.map (fun n => n.id) := by
  induction ready with
  | nil => intro ctx done _; simp [runReady]
  | cons n rest ih =>
    intro ctx done h
    rw [runReady] at h ⊢
    by_cases hc : (n.no_errors &&
        OContext.has_errors { n.run ctx with completed := (n.run ctx).completed ++ [n.id] } n) = true
    · rw [if_pos hc] at h
      simp at h
    · rw [if_neg hc] at h ⊢
      rw [ih _ _ h]
      simp

/-- A halted `runReady` round halts on a ready node with `no_errors` whose
error port holds data in the returned context. -/
theorem runReady_halted (ready : List ONode) :
    ∀ ctx done, (runReady ctx done ready).2.2 = true →
      ∃ n, n ∈ ready ∧ n.no_errors = true ∧
        (runReady ctx done ready).1.has_errors n = true := by
  induction ready with
  | nil => intro ctx done h; simp [runReady] at h
  | cons n rest ih =>
    intro ctx done h
    rw [runReady] at h ⊢
    by_cases hc : (n.no_errors &&
        OContext.has_errors { n.run ctx with completed := (n.run ctx).completed ++ [n.id] } n) = true
    · rw [if_pos hc]
      rw [Bool.and_eq_true] at hc
      exact ⟨n, by simp, hc.1, hc.2⟩
    · rw [if_neg hc] at h ⊢
      obtain ⟨m, hm, h1, h2⟩ := ih _ _ h
      exact ⟨m, by simp [hm], h1, h2⟩

/-- Termination of the scheduler loop: a fuel exceeding the number of
not-yet-done nodes never runs out, because every recursing round marks at
least one further node done. -/
theorem orchLoop_total (nodes : List ONode) :
    ∀ (fuel : Nat) (ctx : OContext) (done : List String),
      (nodes.filter (fun n => !done.contains n.id)).length < fuel →
      orchLoop nodes fuel ctx done ≠ none := by
  intro fuel
  induction fuel with
  | zero => intro ctx done h; exact absurd h (Nat.not_lt_zero _)
  | succ f ih =>
    intro ctx done h
    rw [orchLoop]
    by_cases hr : nodes.filter (fun n => n.is_executable ctx && !done.contains n.id) = []
    · rw [if_pos hr]
      simp
    · rw [if_neg hr]
      by_cases hh : (runReady ctx done
          (nodes.filter (fun n => n.is_executable ctx && !done.contains n.id))).2.2 = true
      · rw [if_pos hh]
        simp
      · rw [if_neg hh]
        apply ih
        have hh' : (runReady ctx done
            (nodes.filter (fun n => n.is_executable ctx && !done.contains n.id))).2.2 = false := by
          rcases hx : (runReady ctx done
              (nodes.filter (fun n => n.is_executable ctx && !done.contains n.id))).2.2 with _ | _
          · rfl
          · exact absurd hx hh
        have hdone := runReady_done
          (nodes.filter (fun n => n.is_executable ctx && !done.contains n.id)) ctx done hh'
        rw [hdone]
        obtain ⟨n0, hn0⟩ := List.exists_mem_of_ne_nil _ hr
        have hn0nodes : n0 ∈ nodes := (List.mem_filter.mp hn0).1
        have hn0f := (List.mem_filter.mp hn0).2
        rw [Bool.and_eq_true] at hn0f
        have hn0p : (!done.contains n0.id) = true := hn0f.2
        have hn0q : (!(done ++ (nodes.filter
            (fun n => n.is_executable ctx && !done.contains n.id)).map
            (fun n => n.id)).contains n0.id) = false := by
          simp
          exact Or.inr ⟨n0, ⟨hn0nodes, hn0f.1, by simpa using hn0p⟩, rfl⟩
        have hlt := length_filter_lt nodes
          (fun n => !done.contains n.id)
          (fun n => !(done ++ (nodes.filter
            (fun n => n.is_executable ctx && !done.contains n.id)).map
            (fun n => n.id)).contains n.id)
          (by
            intro a ha
            simp at ha ⊢
            exact ha.1)
          n0 hn0nodes hn0p hn0q
        omega

/-- When the scheduler loop ends by the error halt, some node of the graph
with `no_errors` has data on an error port in the final context. -/
theorem orchLoop_halted (nodes : List ONode) :
    ∀ (fuel : Nat) (ctx : OContext) (done : List String) st,
      orchLoop nodes fuel ctx done = some st → st.2.2 = true →
      ∃ n, n ∈ nodes ∧ n.no_errors = true ∧ st.1.has_errors n = true := by
  intro fuel
  induction fuel with
  | zero => intro ctx done st h _; simp [orchLoop] at h
  | succ f ih =>
    intro ctx done st h htrue
    rw [orchLoop] at h
    by_cases hr : nodes.filter (fun n => n.is_executable ctx && !done.contains n.id) = []
    · rw [if_pos hr] at h
      injection h with h
      rw [← h] at htrue
      simp at htrue
    · rw [if_neg hr] at h
      by_cases hh : (runReady ctx done
          (nodes.filter (fun n => n.is_executable ctx && !done.contains n.id))).2.2 = true
      · rw [if_pos hh] at h
        injection h with h
        obtain ⟨n, hn, h1, h2⟩ := runReady_halted _ ctx done hh
        exact ⟨n, (List.mem_filter.mp hn).1, h1, by rw [← h]; exact h2⟩
      · rw [if_neg hh] at h
        exact ih _ _ st h htrue

/-- Every auto-generated dangling sink produces no datasets. -/
theorem create_dangling_nodes_produce (node : ONode) (ports : List String)
    (ctx : OContext) (inputs : List String) :
    ∀ s ∈ create_dangling_nodes node ports ctx inputs, s.produce = [] := by
  unfold create_dangling_nodes
  suffices h : ∀ (l : List String) (acc : List ONode), (∀ s ∈ acc, s.produce = []) →
      ∀ s ∈ l.foldl (fun acc p =>
        if !inputs.contains p && ctx.has_data p then acc ++ [mkSink node.id p]
        else acc) acc, s.produce = [] by
    exact h ports [] (by simp)
  intro l
  induction l with
  | nil => intro acc hacc s hs; exact hacc s hs
  | cons p ps ih =>
    intro acc hacc s hs
    simp only [List.foldl_cons] at hs
    refine ih _ ?_ s hs
    intro s' hs'
    by_cases hc : (!inputs.contains p && ctx.has_data p) = true
    · rw [if_pos hc] at hs'
      rcases List.mem_append.mp hs' with h | h
      · exact hacc s' h
      · simp at h
        rw [h]
        rfl
    · rw [if_neg hc] at hs'
      exact hacc s' hs'

/-- Running a node that saves nothing leaves the context unchanged. -/
theorem run_produce_nil (s : ONode) (h : s.produce = []) (c : OContext) :
    s.run c = c := by
  unfold ONode.run
  rw [h]
  rfl

/-- Running a list of nodes that save nothing leaves the context
unchanged. -/
theorem foldl_run_nil : ∀ (sinks : List ONode) (c : OContext),
    (∀ s ∈ sinks, s.produce = []) →
    sinks.foldl (fun c s => s.run c) c = c := by
  intro sinks
  induction sinks with
  | nil => intro c _; rfl
  | cons s rest ih =>
    intro c h
    simp only [List.foldl_cons]
    rw [run_produce_nil s (h s (by simp)) c]
    exact ih c (fun s' hs' => h s' (by simp [hs']))

/-- All sinks created by dangling-port recovery produce no datasets. -/
theorem edp_sinks_produce (nodes : List ONode) (ctx : OContext) :
    ∀ s ∈ (execute_dangling_ports nodes ctx).1, s.produce = [] := by
  unfold execute_dangling_ports
  suffices h : ∀ (l : List ONode) (acc : List ONode), (∀ s ∈ acc, s.produce = []) →
      ∀ s ∈ l.foldl (fun acc n =>
        acc ++ create_dangling_nodes n n.outputs ctx
            (nodes.foldl (fun acc n => acc ++ n.inputs) [])
          ++ create_dangling_nodes n n.errorPorts ctx
            (nodes.foldl (fun acc n => acc ++ n.inputs) [])) acc, s.produce = [] by
    exact h nodes [] (by simp)
  intro l
  induction l with
  | nil => intro acc hacc s hs; exact hacc s hs
  | cons n ns ih =>
    intro acc hacc s hs
    simp only [List.foldl_cons] at hs
    refine ih _ ?_ s hs
    intro s' hs'
    rcases List.mem_append.mp hs' with h' | h'
    · rcases List.mem_append.mp h' with h'' | h''
      · exact hacc s' h''
      · exact create_dangling_nodes_produce n n.outputs ctx _ s' h''
    · exact create_dangling_nodes_produce n n.errorPorts ctx _ s' h'

/-- Dangling-port recovery never changes the context store (the sinks it
runs save nothing). -/
theorem edp_ctx (nodes : List ONode) (ctx : OContext) :
    (execute_dangling_ports nodes ctx).2 = ctx := by
  have h := edp_sinks_produce nodes ctx
  unfold execute_dangling_ports at h ⊢
  exact foldl_run_nil _ ctx h

/-- C2 amended: `Orchestrator.execute` always terminates (the loop is
fuel-bounded and `orchLoop_total` shows the fuel suffices, so the
`RecursionError` marker is unreachable); on a normal return either a node
with `no_errors` halted the rounds with data on an error port, or every node
(sinks included) is executable; and a raised `ProcessingException` always
names a non-empty list of still-unexecutable nodes.  The original claim
omits the halt case, refuted by `scheduler_fixpoint_cex`. -/
theorem scheduler_fixpoint (nodes : List ONode) (ctx : OContext) :
    (∀ res, Orchestrator.execute nodes ctx = .ok res →
       (∃ n, n ∈ nodes ∧ n.no_errors = true ∧ res.ctx.has_errors n = true) ∨
       (∀ n, n ∈ res.nodes → n.is_executable res.ctx = true)) ∧
    (∀ msg, Orchestrator.execute nodes ctx = .error msg →
       ∃ invalid : List String, invalid ≠ [] ∧
         msg = "Unable to complete nodes " ++ String.intercalate ", " invalid) := by
  have htot := orchLoop_total nodes (nodes.length + 1) ctx [] (by
    have := List.length_filter_le (fun n => !([] : List String).contains n.id) nodes
    omega)
  constructor
  · intro res hres
    unfold Orchestrator.execute at hres
    split at hres
    · next horch => exact absurd horch htot
    · next st horch =>
      split at hres
      · next hh =>
        left
        obtain ⟨n, hn, h1, h2⟩ := orchLoop_halted nodes _ _ _ st horch hh
        injection hres with hres
        refine ⟨n, hn, h1, ?_⟩
        rw [← hres]
        simpa [edp_ctx] using h2
      · next hh =>
        dsimp only at hres
        split at hres
        · next hin =>
          right
          injection hres with hres
          intro n hn
          rw [← hres] at hn ⊢
          have hfil := List.map_eq_nil_iff.mp hin
          have := List.filter_eq_nil_iff.mp hfil n hn
          simpa using this
        · next hin => cases hres
  · intro msg hmsg
    unfold Orchestrator.execute at hmsg
    split at hmsg
    · next horch => exact absurd horch htot
    · next st horch =>
      split at hmsg
      · next hh => cases hmsg
      · next hh =>
        dsimp only at hmsg
        split at hmsg
        · next hin => cases hmsg
        · next hin =>
          injection hmsg with hmsg
          exact ⟨_, hin, hmsg.symm⟩

/-- Witness for `scheduler_fixpoint` on the empty graph: the run returns
normally and the disjunction holds (vacuously, every node is executable) —
covering the claim's empty-graph case. -/
theorem scheduler_fixpoint_witness :
    (∃ n, n ∈ ([] : List ONode) ∧ n.no_errors = true ∧
       OContext.has_errors (OrchResult.mk ⟨[], []⟩ [] []).ctx n = true) ∨
    (∀ n, n ∈ (OrchResult.mk (⟨[], []⟩ : OContext) [] []).nodes →
       n.is_executable (OrchResult.mk (⟨[], []⟩ : OContext) [] []).ctx = true) :=
  (scheduler_fixpoint [] ⟨[], []⟩).1 ⟨⟨[], []⟩, [], []⟩ rfl


/-- Replacing the bindings of one key leaves `find?` for a different key
unchanged (map branch of `kvset`). -/
theorem find_map_replace_ne {β : Type} (d : List (String × β)) (k k' : String)
    (v : β) (hne : k' ≠ k) :
    (d.map (fun kv => if kv.1 == k then (k, v) else kv)).find?
        (fun kv => kv.1 == k') =
      d.find? (fun kv => kv.1 == k') := by
  induction d with
  | nil => rfl
  | cons x xs ih =>
    simp only [List.map_cons]
    by_cases hx : (x.1 == k) = true
    · have hxk : x.1 = k := by simpa using hx
      have h1 : ((k, v).1 == k') = false := by
        simp
        exact fun he => hne he.symm
      have h2 : (x.1 == k') = false := by rw [hxk]; simpa using h1
      rw [if_pos hx]
      rw [List.find?_cons_of_neg _ (by simp [h1]), List.find?_cons_of_neg _ (by simp [h2])]
      exact ih
    · rw [if_neg hx]
      by_cases hx' : (x.1 == k') = true
      · rw [List.find?_cons_of_pos (p := fun (kv : String × β) => kv.1 == k') _ hx',
            List.find?_cons_of_pos (p := fun (kv : String × β) => kv.1 == k') _ hx']
      · rw [List.find?_cons_of_neg (p := fun (kv : String × β) => kv.1 == k') _ hx',
            List.find?_cons_of_neg (p := fun (kv : String × β) => kv.1 == k') _ hx']
        exact ih

/-- Dict assignment to one key does not change the lookup of another key. -/
theorem kvfind_kvset_ne {β : Type} (d : List (String × β)) (k k' : String)
    (v : β) (hne : k' ≠ k) :
    kvfind? (kvset d k v) k' = kvfind? d k' := by
  unfold kvset kvfind?
  split
  · rw [find_map_replace_ne d k k' v hne]
  · rw [List.find?_append]
    have h1 : ([(k, v)].find? (fun kv => kv.1 == k')) = none := by
      simp
      exact fun he => hne he.symm
    rw [h1]
    cases d.find? (fun kv => kv.1 == k') <;> rfl

/-- `agreesExcept` is reflexive. -/
theorem agreesExcept_refl (fields : List String) (r : Record) :
    agreesExcept fields r r :=
  ⟨rfl, rfl, fun _ _ => rfl⟩

/-- `agreesExcept` composes. -/
theorem agreesExcept_trans {fields : List String} {a b c : Record}
    (h1 : agreesExcept fields a b) (h2 : agreesExcept fields b c) :
    agreesExcept fields a c :=
  ⟨h2.1.trans h1.1, h2.2.1.trans h1.2.1,
   fun k hk => (h2.2.2 k hk).trans (h1.2.2 k hk)⟩

/-- The store relation is reflexive. -/
theorem storeRel_refl (fields : List String) (l : List Record) :
    List.Forall₂ (agreesExcept fields) l l :=
  List.forall₂_same.mpr (fun r _ => agreesExcept_refl fields r)

/-- The store relation composes. -/
theorem storeRel_trans {fields : List String} :
    ∀ {a b c : List Record}, List.Forall₂ (agreesExcept fields) a b →
      List.Forall₂ (agreesExcept fields) b c →
      List.Forall₂ (agreesExcept fields) a c := by
  intro a b c h1 h2
  induction h1 generalizing c with
  | nil => cases h2; exact List.Forall₂.nil
  | cons hr hrest ih =>
    cases h2 with
    | cons hr2 hrest2 =>
      exact List.Forall₂.cons (agreesExcept_trans hr hr2) (ih hrest2)

/-- Updating one store slot with a record that agrees with it preserves the
store relation to the original store. -/
theorem storeRel_set {fields : List String} :
    ∀ {base cur : List Record},
      List.Forall₂ (agreesExcept fields) base cur →
      ∀ (i : Nat) (b c : Record),
      cur[i]? = some b → agreesExcept fields b c →
      List.Forall₂ (agreesExcept fields) base (cur.set i c) := by
  intro base cur hrel
  induction hrel with
  | nil => intro i b c hget _; simp at hget
  | cons hr hrest ih =>
    intro i b c hget hbc
    cases i with
    | zero =>
      simp at hget
      rw [← hget] at hbc
      simp only [List.set_cons_zero]
      exact List.Forall₂.cons (agreesExcept_trans hr hbc) hrest
    | succ j =>
      simp at hget
      simp only [List.set_cons_succ]
      exact List.Forall₂.cons hr (ih j b c hget hbc)

/-- A successful `Keys.set` is a singleton-key dict assignment. -/
theorem keys_set_ok_inv {ks : Keys} {r r' : Record} {v : Value}
    (h : ks.set r v = .ok r') :
    ∃ k, ks.keys = [k] ∧ r' = { r with data := kvset r.data k v } := by
  unfold Keys.set at h
  split at h
  · cases h
  · next x k heq =>
    injection h with h
    exact ⟨k, heq, h.symm⟩
  · cases h

/-- `getRec` succeeds exactly on a present slot. -/
theorem getRec_inv {store : List Record} {i : Nat} {r : Record}
    (h : getRec store i = .ok r) : store[i]? = some r := by
  unfold getRec at h
  split at h
  · next hx => injection h with h; rw [← h]; exact hx
  · cases h

/-- One in-place pointer rewrite changes the touched record only at its own
key fields, so the store stays related to its previous state. -/
theorem tracePointerSet_rel {fields : List String} {keysx refKeys : Keys}
    {ri : Nat} {target : Option Nat} {st st' : TrailState}
    (hsub : ∀ k ∈ keysx.keys, k ∈ fields)
    (h : tracePointerSet keysx refKeys ri target st = .ok st') :
    List.Forall₂ (agreesExcept fields) st.store st'.store := by
  have main : ∀ (record record' : Record) (key : Value),
      getRec st.store ri = .ok record → keysx.set record key = .ok record' →
      st' = { st with store := st.store.set ri record' } →
      List.Forall₂ (agreesExcept fields) st.store st'.store := by
    intro record record' key hrec hset hst
    obtain ⟨k, hk, hr'⟩ := keys_set_ok_inv hset
    have hagree : agreesExcept fields record record' := by
      rw [hr']
      refine ⟨rfl, rfl, fun k' hk' => ?_⟩
      have hkf : k ∈ fields := hsub k (by rw [hk]; simp)
      have hne : k' ≠ k := fun he => hk' (he ▸ hkf)
      exact kvfind_kvset_ne record.data k k' key hne
    rw [hst]
    exact storeRel_set (storeRel_refl fields st.store) ri record record'
      (getRec_inv hrec) hagree
  cases target with
  | none =>
    unfold tracePointerSet at h
    simp only [bind, Except.bind, pure, Except.pure] at h
    split at h
    · cases h
    · next record hrec =>
      split at h
      · cases h
      · next record' hset =>
        injection h with h
        exact main record record' Value.null hrec hset h.symm
  | some pj =>
    unfold tracePointerSet at h
    simp only [bind, Except.bind, pure, Except.pure] at h
    split at h
    · cases h
    · next p hp =>
      split at h
      · cases h
      · next record hrec =>
        split at h
        · cases h
        · next record' hset =>
          injection h with h
          exact main record record' (refKeys.get p) hrec hset h.symm

/-- `TrailTransform.trace` rewrites only the parent/accepted key fields of
the reference store records: after any successful call, every record of the
store agrees with its previous version outside `pointerFields`. -/
theorem trace_storeRel (t : TrailTransform) (index : List (Value × Nat)) :
    ∀ (fuel : Nat) (ri : Nat) (req : Bool) (st : TrailState)
      (res : Option Nat × TrailState),
      t.trace index fuel ri req st = .ok res →
      List.Forall₂ (agreesExcept (pointerFields t)) st.store res.2.store := by
  intro fuel
  induction fuel with
  | zero => intro ri req st res h; simp [TrailTransform.trace] at h
  | succ f ih =>
    intro ri req st res h
    rw [TrailTransform.trace] at h
    simp only [bind, Except.bind, pure, Except.pure] at h
    split at h
    · cases h
    · next record hrec =>
      split at h
      · next cached hcached =>
        injection h with h
        rw [← h]
        exact storeRel_refl _ _
      · next hseen =>
        have hsubp : ∀ k ∈ t.parent_keys.keys, k ∈ pointerFields t := by
          intro k hk
          unfold pointerFields
          exact List.mem_append.mpr (Or.inl hk)
        split at h
        · next pi hpi =>
          split at h
          · cases h
          · next pres htr =>
            split at h
            · cases h
            · next st2 hps =>
              have hrel1 := storeRel_trans (ih pi false _ pres htr)
                (tracePointerSet_rel hsubp hps)
              split at h
              · next ak hak =>
                have hsuba : ∀ k ∈ ak.keys, k ∈ pointerFields t := by
                  intro k hk
                  unfold pointerFields
                  rw [hak]
                  exact List.mem_append.mpr (Or.inr hk)
                split at h
                · cases h
                · next record2 hrec2 =>
                  split at h
                  · next ai hai =>
                    split at h
                    · cases h
                    · next ares htr2 =>
                      split at h
                      · cases h
                      · next st3 hps2 =>
                        have hrel3 := storeRel_trans hrel1
                          (storeRel_trans (ih ai false _ ares htr2) (tracePointerSet_rel hsuba hps2))
                        split at h
                        · cases h
                        · next record3 hrec3 =>
                          split at h
                          · injection h with h
                            rw [← h]
                            exact hrel3
                          · split at h
                            · next pj hpj =>
                              split at h
                              · cases h
                              · next p hp =>
                                split at h
                                · injection h with h
                                  rw [← h]
                                  exact hrel3
                                · injection h with h
                                  rw [← h]
                                  exact hrel3
                            · next hpj =>
                              injection h with h
                              rw [← h]
                              exact hrel3
                  · next hai =>
                    split at h
                    · cases h
                    · next st3 hps2 =>
                      have hrel3 := storeRel_trans hrel1 (tracePointerSet_rel hsuba hps2)
                      split at h
                      · cases h
                      · next record3 hrec3 =>
                        split at h
                        · injection h with h
                          rw [← h]
                          exact hrel3
                        · split at h
                          · next pj hpj =>
                            split at h
                            · cases h
                            · next p hp =>
                              split at h
                              · injection h with h
                                rw [← h]
                                exact hrel3
                              · injection h with h
                                rw [← h]
                                exact hrel3
                          · next hpj =>
                            injection h with h
                            rw [← h]
                            exact hrel3
              · next hak =>
                split at h
                · cases h
                · next record3 hrec3 =>
                  split at h
                  · injection h with h
                    rw [← h]
                    exact hrel1
                  · split at h
                    · next pj hpj =>
                      split at h
                      · cases h
                      · next p hp =>
                        split at h
                        · injection h with h
                          rw [← h]
                          exact hrel1
                        · injection h with h
                          rw [← h]
                          exact hrel1
                    · next hpj =>
                      injection h with h
                      rw [← h]
                      exact hrel1
        · next hpi =>
          split at h
          · cases h
          · next st2 hps =>
            have hrel1 := tracePointerSet_rel hsubp hps
            split at h
            · next ak hak =>
              have hsuba : ∀ k ∈ ak.keys, k ∈ pointerFields t := by
                intro k hk
                unfold pointerFields
                rw [hak]
                exact List.mem_append.mpr (Or.inr hk)
              split at h
              · cases h
              · next record2 hrec2 =>
                split at h
                · next ai hai =>
                  split at h
                  · cases h
                  · next ares htr2 =>
                    split at h
                    · cases h
                    · next st3 hps2 =>
                      have hrel3 := storeRel_trans hrel1
                        (storeRel_trans (ih ai false _ ares htr2) (tracePointerSet_rel hsuba hps2))
                      split at h
                      · cases h
                      · next record3 hrec3 =>
                        split at h
                        · injection h with h
                          rw [← h]
                          exact hrel3
                        · injection h with h
                          rw [← h]
                          exact hrel3
                · next hai =>
                  split at h
                  · cases h
                  · next st3 hps2 =>
                    have hrel3 := storeRel_trans hrel1 (tracePointerSet_rel hsuba hps2)
                    split at h
                    · cases h
                    · next record3 hrec3 =>
                      split at h
                      · injection h with h
                        rw [← h]
                        exact hrel3
                      · injection h with h
                        rw [← h]
                        exact hrel3
            · next hak =>
              split at h
              · cases h
              · next record3 hrec3 =>
                split at h
                · injection h with h
                  rw [← h]
                  exact hrel1
                · injection h with h
                  rw [← h]
                  exact hrel1

/-- C7 amended: `TrailTransform.execute` mutates the records of the
reference dataset it reads — but only their parent/accepted key fields: the
returned reference store is pointwise equal to the input reference dataset
on the line number, the issues and every field outside `pointerFields`.
All other embedded transforms compose fresh records.  The unrestricted
claim is refuted by `trail_mutation_cex`. -/
theorem trail_mutates_only_pointer_keys (t : TrailTransform)
    (input reference : List Record) (out errs store' : List Record)
    (h : t.execute input reference = .ok (out, errs, store')) :
    List.Forall₂ (agreesExcept (pointerFields t)) reference store' := by
  unfold TrailTransform.execute at h
  simp only [bind, Except.bind, pure, Except.pure] at h
  split at h
  · cases h
  · next index hidx =>
    have hfold : ∀ (l : List Record) (acc : TrailState × List Record),
        List.Forall₂ (agreesExcept (pointerFields t)) reference acc.1.store →
        List.Forall₂ (agreesExcept (pointerFields t)) reference
          (l.foldl (trailExecuteStep t index (reference.length + 1)) acc).1.store := by
      intro l
      induction l with
      | nil => intro acc hacc; exact hacc
      | cons r rs ihl =>
        intro acc hacc
        simp only [List.foldl_cons]
        apply ihl
        unfold trailExecuteStep
        split
        · exact hacc
        · next ri hri =>
          split
          · next res2 htr =>
            exact storeRel_trans hacc
              (trace_storeRel t index _ ri true acc.1 res2 htr)
          · next e htr => exact hacc
    have hmain := hfold input ({ store := reference, seen := [], result := [] }, [])
      (storeRel_refl _ _)
    injection h with h
    have hstore := congrArg (fun p : List Record × List Record × List Record => p.2.2) h
    simp only at hstore
    rw [← hstore]
    exact hmain

/-- Witness for `trail_mutates_only_pointer_keys` at the concrete mutation
scenario. -/
theorem trail_mutates_only_pointer_keys_witness :
    List.Forall₂ (agreesExcept (pointerFields tTrail)) [trailRefMut] [trailRefMut'] :=
  trail_mutates_only_pointer_keys tTrail [trailRefMut] [trailRefMut]
    [trailRefMut'] [] [trailRefMut'] rfl

/-- Dict assignment makes the assigned key look up the assigned value. -/
theorem kvfind_kvset_eq {β : Type} (d : List (String × β)) (k : String) (v : β) :
    kvfind? (kvset d k v) k = some v := by
  unfold kvset kvfind?
  split
  · next hany =>
    induction d with
    | nil => simp at hany
    | cons x xs ih =>
      by_cases hx : (x.1 == k) = true
      · simp only [List.map_cons, if_pos hx]
        rw [List.find?_cons_of_pos (p := fun (kv : String × β) => kv.1 == k) _ (by simp)]
        rfl
      · simp only [List.map_cons, if_neg hx]
        rw [List.find?_cons_of_neg (p := fun (kv : String × β) => kv.1 == k) _ (by simpa using hx)]
        apply ih
        simp only [List.any_cons, hx, Bool.false_or] at hany
        exact hany
  · next hany =>
    rw [List.find?_append]
    have h0 : d.find? (fun kv => kv.1 == k) = none := by
      rw [List.find?_eq_none]
      intro kv hkv hbeq
      have : d.any (fun kv => kv.1 == k) = true := List.any_eq_true.mpr ⟨kv, hkv, hbeq⟩
      exact hany this
    rw [h0]
    simp

/-- Assigning an absent key appends the pair at the end. -/
theorem kvset_append {α β : Type} [BEq α] (d : List (α × β)) (k : α) (v : β)
    (h : kvhas d k = false) : kvset d k v = d ++ [(k, v)] := by
  unfold kvset
  unfold kvhas at h
  rw [if_neg (by rw [h]; simp)]

/-- Key membership distributes over dict concatenation. -/
theorem kvhas_append {α β : Type} [BEq α] (a b : List (α × β)) (k : α) :
    kvhas (a ++ b) k = (kvhas a k || kvhas b k) := by
  unfold kvhas
  exact List.any_append

/-- Lookup in a concatenation tries the left dict first. -/
theorem kvfind_append {α β : Type} [BEq α] (a b : List (α × β)) (k : α) :
    kvfind? (a ++ b) k = (kvfind? a k).or (kvfind? b k) := by
  unfold kvfind?
  rw [List.find?_append]
  cases a.find? (fun kv => kv.1 == k) <;> simp

/-- In a dict built from rows with pairwise distinct keys, each row looks
up its own value. -/
theorem kvfind_map_pairs {α β γ : Type} [BEq α] [LawfulBEq α]
    (f : γ → α) (g : γ → β) :
    ∀ (l : List γ), l.Pairwise (fun a b => f a ≠ f b) →
    ∀ x ∈ l, kvfind? (l.map (fun c => (f c, g c))) (f x) = some (g x) := by
  intro l
  induction l with
  | nil => intro _ x hx; cases hx
  | cons y ys ih =>
    intro hpw x hx
    simp only [List.map_cons]
    rcases List.mem_cons.mp hx with rfl | hx'
    · unfold kvfind?
      rw [List.find?_cons_of_pos (p := fun (kv : α × β) => kv.1 == f x) _ (by simp)]
      rfl
    · have hne : f y ≠ f x := (List.pairwise_cons.mp hpw).1 x hx'
      unfold kvfind?
      rw [List.find?_cons_of_neg (p := fun (kv : α × β) => kv.1 == f x) _ (by simpa using hne)]
      exact ih (List.pairwise_cons.mp hpw).2 x hx'

/-- A key larger than every key of the dict is absent. -/
theorem kvfind_none_of_lt (mr : List (Nat × Value)) (n : Nat)
    (h : ∀ kv ∈ mr, kv.1 < n) : kvfind? mr n = none := by
  unfold kvfind?
  rw [List.find?_eq_none.mpr]
  · rfl
  · intro kv hkv hbeq
    have := h kv hkv
    have : kv.1 = n := by simpa using hbeq
    omega

/-- Pass 1 of `DwcTaxonReidentify.execute` run over rows whose new
identifiers never collide with an earlier record's original identifier and
whose original identifiers are pairwise distinct: the old-to-new map
collects exactly the `(original, new)` pairs in row order, the replacement
map only grows, and the replacement recorded for line `i` is row `i`'s new
identifier. -/
theorem reidentPass1_spec (t : DwcTaxonReidentify) (fresh : Nat → Value) :
    ∀ (rows : List Record) (st : ReidentSt),
    (∀ r ∈ rows, kvhas st.map_lookup (t.identifier r) = false) →
    (∀ r ∈ rows, kvhas st.map_lookup (t.identifier_keys.get r) = false) →
    rows.Pairwise (fun a b => t.identifier b ≠ t.identifier_keys.get a) →
    rows.Pairwise (fun a b => t.identifier_keys.get a ≠ t.identifier_keys.get b) →
    (rows.foldl (reidentStep t fresh) st).map_lookup
        = st.map_lookup ++ rows.map (fun r => (t.identifier_keys.get r, t.identifier r)) ∧
    (∃ tail, (rows.foldl (reidentStep t fresh) st).map_replace
        = st.map_replace ++ tail) ∧
    ((∀ kv ∈ st.map_replace, kv.1 < st.line) →
      ∀ i, ∀ hi : i < rows.length,
        kvfind? (rows.foldl (reidentStep t fresh) st).map_replace (st.line + i)
          = some (t.identifier (rows.get ⟨i, hi⟩))) := by
  intro rows
  induction rows with
  | nil =>
    intro st _ _ _ _
    refine ⟨by simp, ⟨[], by simp⟩, ?_⟩
    intro _ i hi
    cases hi
  | cons x xs ih =>
    intro st h1 h2 h3 h4
    have hx1 : kvhas st.map_lookup (t.identifier x) = false := h1 x (by simp)
    have hx2 : kvhas st.map_lookup (t.identifier_keys.get x) = false := h2 x (by simp)
    have hstep : reidentStep t fresh st x =
        { st with
          map_lookup := st.map_lookup ++ [(t.identifier_keys.get x, t.identifier x)]
          mapping := st.mapping ++
            [⟨x.line, [("term", t.identifier_keys.get x), ("mapping", t.identifier x)], none⟩]
          map_replace := st.map_replace ++ [(st.line, t.identifier x)]
          line := st.line + 1 } := by
      unfold reidentStep
      rw [if_neg (by rw [hx1]; simp)]
      rw [kvset_append _ _ _ hx2]
    have hpw3 := List.pairwise_cons.mp h3
    have hpw4 := List.pairwise_cons.mp h4
    have h1' : ∀ r ∈ xs, kvhas (reidentStep t fresh st x).map_lookup (t.identifier r) = false := by
      intro r hr
      rw [hstep]
      simp only [kvhas_append]
      rw [h1 r (by simp [hr])]
      simp only [Bool.false_or]
      unfold kvhas
      simp
      exact fun he => (hpw3.1 r hr) he.symm
    have h2' : ∀ r ∈ xs, kvhas (reidentStep t fresh st x).map_lookup (t.identifier_keys.get r) = false := by
      intro r hr
      rw [hstep]
      simp only [kvhas_append]
      rw [h2 r (by simp [hr])]
      simp only [Bool.false_or]
      unfold kvhas
      simp
      exact hpw4.1 r hr
    obtain ⟨ihml, ⟨tail, ihmr⟩, ihfind⟩ := ih (reidentStep t fresh st x) h1' h2' hpw3.2 hpw4.2
    simp only [List.foldl_cons]
    refine ⟨?_, ?_, ?_⟩
    · rw [ihml, hstep]
      simp
    · refine ⟨(st.line, t.identifier x) :: tail, ?_⟩
      rw [ihmr, hstep]
      simp
    · intro h5 i hi
      cases i with
      | zero =>
        rw [ihmr, hstep]
        dsimp only
        simp only [Nat.add_zero]
        rw [kvfind_append, kvfind_append]
        rw [kvfind_none_of_lt st.map_replace st.line h5]
        have hone : kvfind? [(st.line, t.identifier x)] st.line = some (t.identifier x) := by
          unfold kvfind?
          rw [List.find?_cons_of_pos (p := fun (kv : Nat × Value) => kv.1 == st.line) _ (by simp)]
          rfl
        rw [hone]
        rfl
      | succ j =>
        have h5' : ∀ kv ∈ (reidentStep t fresh st x).map_replace,
            kv.1 < (reidentStep t fresh st x).line := by
          rw [hstep]
          dsimp only
          intro kv hkv
          rcases List.mem_append.mp hkv with hk | hk
          · have := h5 kv hk
            omega
          · simp at hk
            subst hk
            show st.line < st.line + 1
            omega
        have harith : st.line + (j + 1) = (reidentStep t fresh st x).line + j := by
          rw [hstep]
          dsimp only
          omega
        rw [harith]
        have := ihfind h5' j (by simpa using hi)
        rw [this]
        rfl

/-- Creating a FIRST index over rows whose keys are non-null and pairwise
distinct collects exactly the `(key, record)` entries in row order. -/
theorem index_create_first_map (keys : Keys) :
    ∀ (rows : List Record) (idx0 : List (Value × IndexVal)),
    (∀ r ∈ rows, keys.get r ≠ Value.null) →
    (∀ r ∈ rows, (idx0.any (fun e => e.1 == keys.get r)) = false) →
    rows.Pairwise (fun a b => keys.get a ≠ keys.get b) →
    rows.foldlM (fun i r => i.addRecord r) (⟨keys, .first, idx0⟩ : Index)
      = .ok ⟨keys, .first, idx0 ++ rows.map (fun r => (keys.get r, .one r))⟩ := by
  intro rows
  induction rows with
  | nil => intro idx0 _ _ _; simp [List.foldlM, pure, Except.pure]
  | cons x xs ih =>
    intro idx0 hnn hany hpw
    have hadd : (⟨keys, .first, idx0⟩ : Index).addRecord x
        = .ok ⟨keys, .first, idx0 ++ [(keys.get x, .one x)]⟩ := by
      unfold Index.addRecord
      rw [if_neg (by simp; exact hnn x (by simp))]
      dsimp only
      rw [if_neg (by rw [hany x (by simp)]; simp)]
    rw [List.foldlM_cons, hadd]
    simp only [bind, Except.bind]
    have hpw' := List.pairwise_cons.mp hpw
    have hany' : ∀ r ∈ xs,
        ((idx0 ++ [(keys.get x, IndexVal.one x)]).any (fun e => e.1 == keys.get r)) = false := by
      intro r hr
      rw [List.any_append]
      rw [hany r (by simp [hr])]
      simp
      exact hpw'.1 r hr
    rw [ih (idx0 ++ [(keys.get x, IndexVal.one x)]) (fun r hr => hnn r (by simp [hr])) hany' hpw'.2]
    simp

/-- A pass-2 composition over single-field (and pairwise distinct)
identifier/parent/accepted keys always succeeds; the output record holds
the line's replacement identifier (defaulting to the record's old
identifier) in the identifier field, and each pointer field whose index
probe finds a referenced record is rewritten through `map_lookup` keyed by
that record's original identifier (defaulting to the original itself). -/
theorem reidentCompose_fields (t : DwcTaxonReidentify) (index : Index)
    (ml : List (Value × Value)) (mr : List (Nat × Value))
    (kid kpar kacc : String)
    (hid : t.identifier_keys = ⟨[kid]⟩) (hpar : t.parent_keys = ⟨[kpar]⟩)
    (hacc : t.accepted_keys = ⟨[kacc]⟩)
    (hd1 : kid ≠ kpar) (hd2 : kid ≠ kacc) (hd3 : kpar ≠ kacc)
    (line : Nat) (r : Record) :
    ∃ o, reidentCompose t index ml mr line r = .ok o ∧
      dget o.data kid = (kvfind? mr line).getD (dget r.data kid) ∧
      (∀ p, index.findRecord r t.parent_keys = some p →
        dget o.data kpar = (kvfind? ml (dget p.data kid)).getD (dget p.data kid)) ∧
      (∀ a, index.findRecord r t.accepted_keys = some a →
        dget o.data kacc = (kvfind? ml (dget a.data kid)).getD (dget a.data kid)) := by
  have hgetid : ∀ x : Record, t.identifier_keys.get x = dget x.data kid := by
    intro x
    rw [hid]
    rfl
  have hsetid : ∀ (x : Record) (v : Value), t.identifier_keys.set x v
      = .ok { x with data := kvset x.data kid v } := by
    intro x v
    rw [hid]
    rfl
  have hsetpar : ∀ (x : Record) (v : Value), t.parent_keys.set x v
      = .ok { x with data := kvset x.data kpar v } := by
    intro x v
    rw [hpar]
    rfl
  have hsetacc : ∀ (x : Record) (v : Value), t.accepted_keys.set x v
      = .ok { x with data := kvset x.data kacc v } := by
    intro x v
    rw [hacc]
    rfl
  unfold reidentCompose Record.copy
  simp only [bind, Except.bind, pure, Except.pure, hsetid, hgetid]
  cases hp : index.findRecord r t.parent_keys with
  | none =>
    cases ha : index.findRecord r t.accepted_keys with
    | none =>
      refine ⟨_, rfl, ?_, ?_, ?_⟩
      · dsimp only
        unfold dget
        rw [kvfind_kvset_eq]
        rfl
      · intro p hq; cases hq
      · intro a hq; cases hq
    | some a =>
      simp only [hsetacc]
      refine ⟨_, rfl, ?_, ?_, ?_⟩
      · dsimp only
        unfold dget
        rw [kvfind_kvset_ne _ kacc kid _ hd2]
        rw [kvfind_kvset_eq]
        rfl
      · intro p hq; cases hq
      · intro a' hq
        injection hq with hq
        subst hq
        dsimp only
        unfold dget
        rw [kvfind_kvset_eq]
        rfl
  | some p =>
    simp only [hsetpar]
    cases ha : index.findRecord r t.accepted_keys with
    | none =>
      refine ⟨_, rfl, ?_, ?_, ?_⟩
      · dsimp only
        unfold dget
        rw [kvfind_kvset_ne _ kpar kid _ hd1]
        rw [kvfind_kvset_eq]
        rfl
      · intro p' hq
        injection hq with hq
        subst hq
        dsimp only
        unfold dget
        rw [kvfind_kvset_eq]
        rfl
      · intro a hq; cases hq
    | some a =>
      simp only [hsetacc]
      refine ⟨_, rfl, ?_, ?_, ?_⟩
      · dsimp only
        unfold dget
        rw [kvfind_kvset_ne _ kacc kid _ hd2]
        rw [kvfind_kvset_ne _ kpar kid _ hd1]
        rw [kvfind_kvset_eq]
        rfl
      · intro p' hq
        injection hq with hq
        subst hq
        dsimp only
        unfold dget
        rw [kvfind_kvset_ne _ kacc kpar _ hd3]
        rw [kvfind_kvset_eq]
        rfl
      · intro a' hq
        injection hq with hq
        subst hq
        dsimp only
        unfold dget
        rw [kvfind_kvset_eq]
        rfl

/-- Pass 2 of `DwcTaxonReidentify.execute`: when every composition
succeeds, the fold appends exactly one output record per row, adds no
error records, and the `i`-th output is the composition of the `i`-th row
at line `n + i`. -/
theorem reidentPass2_fold (t : DwcTaxonReidentify) (index : Index)
    (ml : List (Value × Value)) (mr : List (Nat × Value)) :
    ∀ (rows : List Record) (a e : List Record) (n : Nat),
    (∀ (m : Nat) (r : Record), r ∈ rows → ∃ c, reidentCompose t index ml mr m r = .ok c) →
    ∃ outs, rows.foldl (reidentPass2Step t index ml mr) (a, e, n)
        = (a ++ outs, e, n + rows.length) ∧
      outs.length = rows.length ∧
      (∀ i r, rows.get? i = some r →
        ∃ c, outs.get? i = some c ∧ reidentCompose t index ml mr (n + i) r = .ok c) := by
  intro rows
  induction rows with
  | nil =>
    intro a e n _
    refine ⟨[], by simp, rfl, ?_⟩
    intro i r h
    cases h
  | cons x xs ih =>
    intro a e n hok
    obtain ⟨c, hc⟩ := hok n x (by simp)
    have hstep : reidentPass2Step t index ml mr (a, e, n) x = (a ++ [c], e, n + 1) := by
      unfold reidentPass2Step
      rw [hc]
    rw [List.foldl_cons, hstep]
    obtain ⟨outs, hfold, hlen, hget⟩ := ih (a ++ [c]) e (n + 1)
      (fun m r hr => hok m r (by simp [hr]))
    refine ⟨c :: outs, ?_, by simp [hlen], ?_⟩
    · rw [hfold]
      simp [List.append_assoc]
      omega
    · intro i r h
      match i, h with
      | 0, h =>
        have hr : x = r := by simpa using h
        subst hr
        exact ⟨c, rfl, by simpa using hc⟩
      | Nat.succ j, h =>
        obtain ⟨c2, hc1, hc2⟩ := hget j r (by simpa using h)
        refine ⟨c2, by simpa using hc1, ?_⟩
        have harith : n + (j + 1) = (n + 1) + j := by omega
        rw [harith]
        exact hc2


/-- C1 counterexample: rows `A`, `B`, `C` where `B`'s intended new
identifier `"A"` equals `A`'s original identifier and `C`'s parent points
at `B`.  Pass 1 gives `B` the fresh identifier `uuid-0` but records no
mapping for `B`'s original identifier — the collision check
(`dwc/transform.py` 231-236) tests the intended identifier against the
original identifiers of earlier records and skips the `map_lookup` update
on the substitution path — so pass 2 leaves `C`'s parent pointer at the
stale old identifier `"B"` while the record that held old identifier `"B"`
now carries `uuid-0`: the output edges are not internally consistent, and
`B` is missing from the mapping output (terms `A` and `C` only). -/
theorem reident_collision_cex :
    (DwcTaxonReidentify.execute tReident freshR [rdA, rdB, rdC]).map
        (fun res => (res.1.map (fun r => dget r.data "taxonID"),
                     res.1.map (fun r => dget r.data "parentNameUsageID"),
                     (res.2.1.map (fun r => dget r.data "term"), res.2.2)))
      = .ok ([Value.str "N1", Value.str "uuid-0", Value.str "N3"],
             [Value.null, Value.null, Value.str "B"],
             ([Value.str "A", Value.str "C"], ([] : List Record))) := by rfl

/-- C1 (amended): over single-field identifier/parent/accepted keys and
rows whose original identifiers are non-null and pairwise distinct, and
whose intended new identifiers never equal the original identifier of an
earlier record (so the fresh-substitution path never fires),
`DwcTaxonReidentify.execute` succeeds with no error records and one output
per row; each output's identifier field is its row's new identifier, and
every parent/accepted pointer that references some row's original
identifier is rewritten to that row's new identifier — the relabelled
edges are internally consistent.  On the excluded collision path the
claimed consistency fails, witnessed by `reident_collision_cex`. -/
theorem relabel_consistency (t : DwcTaxonReidentify) (fresh : Nat → Value)
    (kid kpar kacc : String)
    (hid : t.identifier_keys = ⟨[kid]⟩) (hpar : t.parent_keys = ⟨[kpar]⟩)
    (hacc : t.accepted_keys = ⟨[kacc]⟩)
    (hd1 : kid ≠ kpar) (hd2 : kid ≠ kacc) (hd3 : kpar ≠ kacc)
    (rows : List Record)
    (hnn : ∀ r ∈ rows, t.identifier_keys.get r ≠ Value.null)
    (hnodup : rows.Pairwise (fun a b => t.identifier_keys.get a ≠ t.identifier_keys.get b))
    (hnocoll : rows.Pairwise (fun a b => t.identifier b ≠ t.identifier_keys.get a)) :
    ∃ out mapping,
      DwcTaxonReidentify.execute t fresh rows = .ok (out, mapping, []) ∧
      out.length = rows.length ∧
      ∀ i r o, rows.get? i = some r → out.get? i = some o →
        dget o.data kid = t.identifier r ∧
        (∀ p ∈ rows, t.identifier_keys.get p = t.parent_keys.get r →
          dget o.data kpar = t.identifier p) ∧
        (∀ q ∈ rows, t.identifier_keys.get q = t.accepted_keys.get r →
          dget o.data kacc = t.identifier q) := by
  have hgetid : ∀ x : Record, t.identifier_keys.get x = dget x.data kid := by
    intro x; rw [hid]; rfl
  obtain ⟨idx, hidxeq⟩ : ∃ idx : Index, idx = ⟨t.identifier_keys, .first,
      rows.map (fun r => (t.identifier_keys.get r, IndexVal.one r))⟩ := ⟨_, rfl⟩
  have hidx : Index.create rows t.identifier_keys .first = .ok idx := by
    rw [hidxeq]
    unfold Index.create
    have := index_create_first_map t.identifier_keys rows [] hnn (by intro r _; rfl) hnodup
    simpa using this
  have hp1 := reidentPass1_spec t fresh rows
    ⟨[], [], [], 0, 0⟩ (by intro r _; rfl) (by intro r _; rfl) hnocoll hnodup
  have hml : (reidentPass1 t fresh rows).map_lookup
      = rows.map (fun r => (t.identifier_keys.get r, t.identifier r)) := by
    unfold reidentPass1
    simpa using hp1.1
  have hfind : ∀ i (hi : i < rows.length),
      kvfind? (reidentPass1 t fresh rows).map_replace (0 + i)
        = some (t.identifier (rows.get ⟨i, hi⟩)) := by
    intro i hi
    exact hp1.2.2 (by intro kv h; cases h) i hi
  have hcomp := fun (m : Nat) (r : Record) =>
    reidentCompose_fields t idx (reidentPass1 t fresh rows).map_lookup
      (reidentPass1 t fresh rows).map_replace kid kpar kacc hid hpar hacc hd1 hd2 hd3 m r
  obtain ⟨outs, hfold, hlen, hget⟩ :=
    reidentPass2_fold t idx (reidentPass1 t fresh rows).map_lookup
      (reidentPass1 t fresh rows).map_replace rows [] [] 0
      (fun m r _ => (hcomp m r).elim (fun o ho => ⟨o, ho.1⟩))
  have hfindrec : ∀ (k2 : Keys) (r p : Record), p ∈ rows →
      t.identifier_keys.get p = k2.get r → idx.findRecord r k2 = some p := by
    intro k2 r p hp hpe
    have hkv : idx.findByKey (k2.get r) = some (IndexVal.one p) := by
      unfold Index.findByKey
      rw [hidxeq]
      dsimp only
      rw [← hpe]
      exact kvfind_map_pairs _ _ rows hnodup p hp
    unfold Index.findRecord
    rw [hkv]
  refine ⟨outs, (reidentPass1 t fresh rows).mapping, ?_, hlen, ?_⟩
  · unfold DwcTaxonReidentify.execute
    rw [hidx]
    simp only [bind, Except.bind]
    unfold reidentPass2
    dsimp only
    rw [hfold]
    simp
  · intro i r o hri hoi
    obtain ⟨hi, hieq⟩ := List.get?_eq_some.mp hri
    obtain ⟨c, hc1, hc2⟩ := hget i r hri
    have hoc : c = o := by
      rw [hc1] at hoi
      exact Option.some.inj hoi
    subst hoc
    obtain ⟨o2, ho1, hfid, hfpar, hfacc⟩ := hcomp (0 + i) r
    have ho2 : o2 = c := by
      rw [ho1] at hc2
      exact Except.ok.inj hc2
    subst ho2
    refine ⟨?_, ?_, ?_⟩
    · rw [hfid, hfind i hi, hieq]
      rfl
    · intro p hp hpe
      rw [hfpar p (hfindrec t.parent_keys r p hp hpe), ← hgetid p, hml,
          kvfind_map_pairs _ _ rows hnodup p hp]
      rfl
    · intro q hq hqe
      rw [hfacc q (hfindrec t.accepted_keys r q hq hqe), ← hgetid q, hml,
          kvfind_map_pairs _ _ rows hnodup q hq]
      rfl

/-- Witness for `relabel_consistency` at the two-row instance `rwA`,
`rwB`, where `rwB`'s parent references `rwA`. -/
theorem relabel_consistency_witness :
    ∃ out mapping,
      DwcTaxonReidentify.execute tReident freshR [rwA, rwB] = .ok (out, mapping, []) ∧
      out.length = [rwA, rwB].length ∧
      ∀ i r o, [rwA, rwB].get? i = some r → out.get? i = some o →
        dget o.data "taxonID" = tReident.identifier r ∧
        (∀ p ∈ [rwA, rwB], tReident.identifier_keys.get p = tReident.parent_keys.get r →
          dget o.data "parentNameUsageID" = tReident.identifier p) ∧
        (∀ q ∈ [rwA, rwB], tReident.identifier_keys.get q = tReident.accepted_keys.get r →
          dget o.data "acceptedNameUsageID" = tReident.identifier q) :=
  relabel_consistency tReident freshR "taxonID" "parentNameUsageID" "acceptedNameUsageID"
    rfl rfl rfl (by decide) (by decide) (by decide) [rwA, rwB]
    (by decide) (by decide) (by decide)

end NameProc
